import Mathlib

/-!
Verification of the serial transport / STM32 bootloader stack of
open-motion-light-manager.

The transport (`SerialTransport.ts`) is embedded as a pure state machine:
the physical byte stream is a list of chunks (each with an arrival delay,
used to model the `Date.now()`-based deadline logic), and the `leftover`
buffer is a list of bytes.  Fallible operations return `Except`.
-/

/-- One physical read result from the underlying stream: `delay` models the
time (ms) the `reader.read()` call takes to resolve, `bytes` its payload. -/
structure Chunk where
  delay : Nat
  bytes : List Nat
deriving Repr, DecidableEq

/-- State owned by `SerialTransport`: the `leftover` buffer plus the pending
physical stream (`reader.read()` yields the chunks in order; an empty list
models the stream reporting `done`). -/
structure TransportState where
  leftover : List Nat
  chunks : List Chunk
deriving Repr, DecidableEq

/-- Errors of the serial layer (`errors.ts` plus `DOMException` aborts). -/
inductive SerialErr where
  | timeoutErr
  | abortErr
  | connErr
  | protocolErr (msg : String)
deriving Repr, DecidableEq

/-- All bytes that can still be produced by the transport, in order:
leftover first, then the concatenated physical chunks. -/
def TransportState.avail (s : TransportState) : List Nat :=
  s.leftover ++ (s.chunks.map Chunk.bytes).flatten

/-- `SerialTransport.readChunk`: if the leftover buffer is non-empty it is
returned and cleared before any abort or timeout check; otherwise, if the
abort signal already fired the call fails with `AbortError`; otherwise one
physical read happens, racing against the timeout timer when a (truthy,
i.e. non-zero) budget is given.  Returns the chunk (`none` when the stream
is done), the elapsed time, and the new state. -/
def readChunk (aborted : Bool) (budget : Option Nat) (s : TransportState) :
    Except SerialErr (Option (List Nat) × Nat × TransportState) :=
  if s.leftover ≠ [] then
    .ok (some s.leftover, 0, ⟨[], s.chunks⟩)
  else if aborted then
    .error .abortErr
  else
    match s.chunks with
    | [] => .ok (none, 0, s)
    | c :: rest =>
      match budget with
      | some (b + 1) =>
        if b + 1 ≤ c.delay then .error .timeoutErr
        else .ok (some c.bytes, c.delay, ⟨[], rest⟩)
      | _ => .ok (some c.bytes, c.delay, ⟨[], rest⟩)

/-- Termination measure for the `readExact` loop: every successful
`readChunk` either consumes the leftover buffer or one physical chunk. -/
def tsMeasure (s : TransportState) : Nat :=
  s.chunks.length + (if s.leftover = [] then 0 else 1)

theorem readChunk_measure_lt {aborted : Bool} {budget : Option Nat}
    {s : TransportState} {c : List Nat} {d : Nat} {s1 : TransportState}
    (h : readChunk aborted budget s = .ok (some c, d, s1)) :
    tsMeasure s1 < tsMeasure s := by
  unfold readChunk at h
  by_cases hl : s.leftover = []
  · simp [hl] at h
    cases hab : aborted with
    | true => simp [hab] at h
    | false =>
      simp [hab] at h
      cases hc : s.chunks with
      | nil => simp [hc] at h
      | cons ch rest =>
        simp [hc] at h
        match budget with
        | none =>
          simp at h
          obtain ⟨_, _, h3⟩ := h
          simp [← h3, tsMeasure, hl, hc]
        | some 0 =>
          simp at h
          obtain ⟨_, _, h3⟩ := h
          simp [← h3, tsMeasure, hl, hc]
        | some (b + 1) =>
          by_cases hbd : b + 1 ≤ ch.delay
          · simp [hbd] at h
          · simp [hbd] at h
            obtain ⟨_, _, h3⟩ := h
            simp [← h3, tsMeasure, hl, hc]
  · simp [hl] at h
    obtain ⟨_, _, h3⟩ := h
    simp [← h3, tsMeasure, hl]

/-- The deadline computation at the top of the `readExact` loop:
`remainingTimeout = timeout - elapsed`; if it is `≤ 0` the loop throws
`TimeoutError`, otherwise the (positive) remainder is the sub-read budget. -/
def remainingBudget (timeout : Option Nat) (elapsed : Nat) :
    Except SerialErr (Option Nat) :=
  match timeout with
  | none => .ok none
  | some t => if t ≤ elapsed then .error .timeoutErr else .ok (some (t - elapsed))

/-- The `readExact` accumulation loop (`SerialTransport.readExact`),
recursing on the transport state split into its two components
(`lo` = leftover buffer, `cs` = pending physical chunks).  `needed` is
`length - offset`; each iteration checks the remaining budget, performs one
`readChunk` (its cases are inlined here so that the recursion is visibly
well-founded; `readExactGo_via_readChunk` below proves the correspondence),
copies `min(chunk.length, needed)` bytes and stores any excess as the new
leftover. -/
def readExactGo (aborted : Bool) (timeout : Option Nat) :
    Nat → Nat → List Nat → List Chunk →
      Except SerialErr (List Nat × Nat × TransportState)
  | elapsed, needed, lo, cs =>
    if needed = 0 then .ok ([], elapsed, ⟨lo, cs⟩)
    else
      match remainingBudget timeout elapsed with
      | .error e => .error e
      | .ok budget =>
        match lo, cs with
        | l :: ls, cs =>
          if needed ≤ (l :: ls).length then
            .ok ((l :: ls).take needed, elapsed + 0,
              ⟨if needed < (l :: ls).length then (l :: ls).drop needed else [], cs⟩)
          else
            match readExactGo aborted timeout (elapsed + 0)
                (needed - (l :: ls).length) [] cs with
            | .ok (restBytes, e2, s2) => .ok ((l :: ls) ++ restBytes, e2, s2)
            | .error e => .error e
        | [], cs =>
          if aborted then .error .abortErr
          else
            match cs with
            | [] => .error .connErr
            | c :: rest =>
              match budget with
              | some (b + 1) =>
                if b + 1 ≤ c.delay then .error .timeoutErr
                else
                  if needed ≤ c.bytes.length then
                    .ok (c.bytes.take needed, elapsed + c.delay,
                      ⟨if needed < c.bytes.length then c.bytes.drop needed else [],
                        rest⟩)
                  else
                    match readExactGo aborted timeout (elapsed + c.delay)
                        (needed - c.bytes.length) [] rest with
                    | .ok (restBytes, e2, s2) => .ok (c.bytes ++ restBytes, e2, s2)
                    | .error e => .error e
              | _ =>
                if needed ≤ c.bytes.length then
                  .ok (c.bytes.take needed, elapsed + c.delay,
                    ⟨if needed < c.bytes.length then c.bytes.drop needed else [],
                      rest⟩)
                else
                  match readExactGo aborted timeout (elapsed + c.delay)
                      (needed - c.bytes.length) [] rest with
                  | .ok (restBytes, e2, s2) => .ok (c.bytes ++ restBytes, e2, s2)
                  | .error e => .error e
termination_by elapsed needed lo cs => cs.length + lo.length
decreasing_by all_goals (simp; try omega)

/-- `SerialTransport.readExact(length, {timeout})`.  A `timeout` of `0` is
falsy in the source and therefore means "no deadline". -/
def readExact (aborted : Bool) (timeout : Option Nat) (n : Nat)
    (s : TransportState) : Except SerialErr (List Nat × Nat × TransportState) :=
  readExactGo aborted (match timeout with | some 0 => none | t => t) 0 n
    s.leftover s.chunks

theorem readChunk_leftover_branch (aborted : Bool) (budget : Option Nat)
    (s : TransportState) (h : s.leftover ≠ []) :
    readChunk aborted budget s = .ok (some s.leftover, 0, ⟨[], s.chunks⟩) := by
  unfold readChunk
  simp [h]

/-- Faithfulness of the inlined loop body: for a non-trivial iteration with
budget `budget`, `readExactGo` behaves exactly as one `readChunk` call
followed by the copy/leftover/recursion logic of the source. -/
theorem readExactGo_via_readChunk (aborted : Bool) (timeout : Option Nat)
    (elapsed needed : Nat) (lo : List Nat) (cs : List Chunk)
    (h : needed ≠ 0) (budget : Option Nat)
    (hb : remainingBudget timeout elapsed = .ok budget) :
    readExactGo aborted timeout elapsed needed lo cs =
      match readChunk aborted budget ⟨lo, cs⟩ with
      | .error e => .error e
      | .ok (none, _, _) => .error .connErr
      | .ok (some c, d, s1) =>
        if needed ≤ c.length then
          .ok (c.take needed, elapsed + d,
            ⟨if needed < c.length then c.drop needed else [], s1.chunks⟩)
        else
          match readExactGo aborted timeout (elapsed + d) (needed - c.length)
              s1.leftover s1.chunks with
          | .ok (restBytes, e2, s2) => .ok (c ++ restBytes, e2, s2)
          | .error e => .error e := by
  conv_lhs => rw [readExactGo]
  simp only [h, if_false, hb]
  cases lo with
  | cons l ls =>
    rw [readChunk_leftover_branch aborted budget ⟨l :: ls, cs⟩ (by simp)]
  | nil =>
    cases hab : aborted with
    | true =>
      rw [show readChunk true budget ⟨[], cs⟩ = .error .abortErr by
        unfold readChunk; simp]
      rfl
    | false =>
      cases cs with
      | nil =>
        rw [show readChunk false budget ⟨[], []⟩ = .ok (none, 0, ⟨[], []⟩)
          by unfold readChunk; simp]
        rfl
      | cons c rest =>
        match budget with
        | none =>
          rw [show readChunk false none ⟨[], c :: rest⟩ =
            .ok (some c.bytes, c.delay, ⟨[], rest⟩) by unfold readChunk; simp]
          rfl
        | some 0 =>
          rw [show readChunk false (some 0) ⟨[], c :: rest⟩ =
            .ok (some c.bytes, c.delay, ⟨[], rest⟩) by unfold readChunk; simp]
          rfl
        | some (b + 1) =>
          by_cases hbd : b + 1 ≤ c.delay
          · rw [show readChunk false (some (b + 1)) ⟨[], c :: rest⟩ =
              .error .timeoutErr by unfold readChunk; simp [hbd]]
            simp [hbd]
          · rw [show readChunk false (some (b + 1)) ⟨[], c :: rest⟩ =
              .ok (some c.bytes, c.delay, ⟨[], rest⟩) by unfold readChunk; simp [hbd]]
            simp [hbd]

theorem avail_mk_cons_lo (l : Nat) (ls : List Nat) (cs : List Chunk) :
    (TransportState.mk (l :: ls) cs).avail =
      (l :: ls) ++ (TransportState.mk [] cs).avail := by
  simp [TransportState.avail]

theorem avail_mk_cons_chunk (c : Chunk) (rest : List Chunk) :
    (TransportState.mk [] (c :: rest)).avail =
      c.bytes ++ (TransportState.mk [] rest).avail := by
  simp [TransportState.avail]

theorem avail_mk_nil : (TransportState.mk [] []).avail = [] := by
  simp [TransportState.avail]

/-- Bookkeeping for the loop exit: when the final chunk `L` holds at least
the `needed` bytes, the bytes returned are a prefix and the state keeps the
rest (excess stored as leftover). -/
theorem frame_exit (L A1 : List Nat) (needed : Nat) (hex : needed ≤ L.length) :
    (L ++ A1).take needed = L.take needed ∧
    (if needed < L.length then L.drop needed else ([] : List Nat)) ++ A1 =
      (L ++ A1).drop needed := by
  constructor
  · rw [List.take_append_eq_append_take]
    have : needed - L.length = 0 := by omega
    simp [this]
  · rw [List.drop_append_eq_append_drop]
    have h0 : needed - L.length = 0 := by omega
    by_cases hlt : needed < L.length
    · simp [hlt, h0]
    · have hEq : needed = L.length := by omega
      simp [hlt, hEq]

/-- Bookkeeping for a continuing iteration: the consumed chunk `L` is a
prefix of the result and the remainder is read from the rest. -/
theorem frame_cont (L A1 : List Nat) (needed : Nat) (hlt : L.length < needed) :
    L ++ A1.take (needed - L.length) = (L ++ A1).take needed ∧
    A1.drop (needed - L.length) = (L ++ A1).drop needed := by
  constructor
  · rw [List.take_append_eq_append_take]
    have : L.take needed = L := List.take_of_length_le (by omega)
    rw [this]
  · rw [List.drop_append_eq_append_drop]
    have : L.drop needed = [] := List.drop_eq_nil_of_le (by omega)
    simp [this]

theorem readExactGo_zero (aborted : Bool) (timeout : Option Nat)
    (elapsed : Nat) (lo : List Nat) (cs : List Chunk) :
    readExactGo aborted timeout elapsed 0 lo cs = .ok ([], elapsed, ⟨lo, cs⟩) := by
  rw [readExactGo]
  simp

theorem readExactGo_none_leftover (elapsed needed : Nat) (l : Nat)
    (ls : List Nat) (cs : List Chunk) (h : needed ≠ 0) :
    readExactGo false none elapsed needed (l :: ls) cs =
      if needed ≤ (l :: ls).length then
        .ok ((l :: ls).take needed, elapsed + 0,
          ⟨if needed < (l :: ls).length then (l :: ls).drop needed else [], cs⟩)
      else
        match readExactGo false none (elapsed + 0)
            (needed - (l :: ls).length) [] cs with
        | .ok (restBytes, e2, s2) => .ok ((l :: ls) ++ restBytes, e2, s2)
        | .error e => .error e := by
  conv_lhs => rw [readExactGo]
  simp only [h, if_false]
  rfl

theorem readExactGo_none_nil (elapsed needed : Nat) (h : needed ≠ 0) :
    readExactGo false none elapsed needed [] [] = .error .connErr := by
  conv_lhs => rw [readExactGo]
  simp only [h, if_false]
  rfl

theorem readExactGo_none_cons (elapsed needed : Nat) (c : Chunk)
    (rest : List Chunk) (h : needed ≠ 0) :
    readExactGo false none elapsed needed [] (c :: rest) =
      if needed ≤ c.bytes.length then
        .ok (c.bytes.take needed, elapsed + c.delay,
          ⟨if needed < c.bytes.length then c.bytes.drop needed else [], rest⟩)
      else
        match readExactGo false none (elapsed + c.delay)
            (needed - c.bytes.length) [] rest with
        | .ok (restBytes, e2, s2) => .ok (c.bytes ++ restBytes, e2, s2)
        | .error e => .error e := by
  conv_lhs => rw [readExactGo]
  simp only [h, if_false]
  rfl

/-- Correctness of the `readExact` loop with no deadline: whenever the
stream still holds at least `needed` bytes, exactly the first `needed`
bytes of `avail` are returned, in order, and the final state makes exactly
the remaining bytes available, its chunk queue being a suffix of the
original one. -/
theorem readExactGo_none_spec :
    ∀ (m : Nat) (lo : List Nat) (cs : List Chunk), cs.length + lo.length ≤ m →
    ∀ (needed elapsed : Nat),
      needed ≤ (TransportState.mk lo cs).avail.length →
    ∃ d s', readExactGo false none elapsed needed lo cs =
        .ok ((TransportState.mk lo cs).avail.take needed, elapsed + d, s') ∧
      s'.avail = (TransportState.mk lo cs).avail.drop needed ∧
      List.IsSuffix s'.chunks cs := by
  intro m
  induction m with
  | zero =>
    intro lo cs hm needed elapsed hlen
    match lo, cs with
    | [], [] =>
      rw [avail_mk_nil] at hlen
      simp at hlen
      refine ⟨0, ⟨[], []⟩, ?_, ?_, List.suffix_refl _⟩
      · rw [hlen, readExactGo_zero]
        simp [avail_mk_nil]
      · simp [hlen, avail_mk_nil]
    | l :: ls, _ => simp at hm
    | _, c :: rest => simp at hm
  | succ m ih =>
    intro lo cs hm needed elapsed hlen
    by_cases h0 : needed = 0
    · refine ⟨0, ⟨lo, cs⟩, ?_, ?_, List.suffix_refl _⟩
      · rw [h0, readExactGo_zero]
        simp
      · simp [h0]
    · match lo, cs with
      | [], [] =>
        exfalso
        rw [avail_mk_nil] at hlen
        simp at hlen
        exact h0 hlen
      | l :: ls, cs =>
        rw [readExactGo_none_leftover elapsed needed l ls cs h0]
        rw [avail_mk_cons_lo] at hlen ⊢
        by_cases hex : needed ≤ (l :: ls).length
        · simp only [hex, if_true]
          obtain ⟨ht, hd⟩ := frame_exit (l :: ls) (TransportState.mk [] cs).avail
            needed hex
          refine ⟨0, ⟨if needed < (l :: ls).length then (l :: ls).drop needed else [],
            cs⟩, ?_, ?_, List.suffix_refl _⟩
          · rw [ht]
          · show (if needed < (l :: ls).length then (l :: ls).drop needed else []) ++
              (cs.map Chunk.bytes).flatten = _
            rw [← hd]
            rfl
        · simp only [hex, if_false]
          have hmeas : cs.length + ([] : List Nat).length ≤ m := by
            simp at hm ⊢
            omega
          have hlen' : needed - (l :: ls).length ≤
              (TransportState.mk [] cs).avail.length := by
            simp at hlen ⊢
            simp [TransportState.avail] at hlen ⊢
            omega
          obtain ⟨d, s', heq, hdrop, hsuf⟩ :=
            ih [] cs hmeas (needed - (l :: ls).length) (elapsed + 0) hlen'
          rw [heq]
          obtain ⟨ht, hd⟩ := frame_cont (l :: ls) (TransportState.mk [] cs).avail
            needed (by omega)
          refine ⟨d, s', ?_, ?_, hsuf⟩
          · rw [← ht]
            simp
          · rw [hdrop, ← hd]
      | [], c :: rest =>
        rw [readExactGo_none_cons elapsed needed c rest h0]
        rw [avail_mk_cons_chunk] at hlen ⊢
        by_cases hex : needed ≤ c.bytes.length
        · simp only [hex, if_true]
          obtain ⟨ht, hd⟩ := frame_exit c.bytes (TransportState.mk [] rest).avail
            needed hex
          refine ⟨c.delay, ⟨if needed < c.bytes.length then c.bytes.drop needed
            else [], rest⟩, ?_, ?_, List.suffix_cons c rest⟩
          · rw [ht]
          · show (if needed < c.bytes.length then c.bytes.drop needed else []) ++
              (rest.map Chunk.bytes).flatten = _
            rw [← hd]
            rfl
        · simp only [hex, if_false]
          have hmeas : rest.length + ([] : List Nat).length ≤ m := by
            simp at hm ⊢
            omega
          have hlen' : needed - c.bytes.length ≤
              (TransportState.mk [] rest).avail.length := by
            simp [TransportState.avail] at hlen ⊢
            omega
          obtain ⟨d, s', heq, hdrop, hsuf⟩ :=
            ih [] rest hmeas (needed - c.bytes.length) (elapsed + c.delay) hlen'
          rw [heq]
          obtain ⟨ht, hd⟩ := frame_cont c.bytes (TransportState.mk [] rest).avail
            needed (by omega)
          refine ⟨c.delay + d, s', ?_, ?_,
            List.IsSuffix.trans hsuf (List.suffix_cons c rest)⟩
          · rw [← ht, ← Nat.add_assoc]
          · rw [hdrop, ← hd]

/-- C1: for every sequence of physical chunks whose sizes sum to at least
`N`, `readExact(N)` returns exactly the first `N` bytes of the
concatenated stream in order (excess bytes of the final chunk stay
available as leftover), a subsequent `readExact(M)` returns the next `M`
bytes, the concatenation of the two outputs is the first `N + M` bytes of
the concatenated physical chunks, and afterwards exactly the remaining
bytes are still available — no byte lost or duplicated. -/
theorem readExact_exact_framing (s : TransportState) (N M : Nat)
    (h : N + M ≤ s.avail.length) :
    ∃ e1 e2 s1 s2,
      readExact false none N s = .ok (s.avail.take N, e1, s1) ∧
      s1.avail = s.avail.drop N ∧
      readExact false none M s1 = .ok ((s.avail.drop N).take M, e2, s2) ∧
      s2.avail = s.avail.drop (N + M) ∧
      s.avail.take N ++ (s.avail.drop N).take M = s.avail.take (N + M) := by
  have hN : N ≤ (TransportState.mk s.leftover s.chunks).avail.length := by
    show N ≤ s.avail.length
    omega
  obtain ⟨d1, s1, heq1, hdrop1, _⟩ :=
    readExactGo_none_spec (s.chunks.length + s.leftover.length) s.leftover
      s.chunks le_rfl N 0 hN
  have hM : M ≤ (TransportState.mk s1.leftover s1.chunks).avail.length := by
    show M ≤ s1.avail.length
    have : s1.avail = s.avail.drop N := hdrop1
    rw [this, List.length_drop]
    omega
  obtain ⟨d2, s2, heq2, hdrop2, _⟩ :=
    readExactGo_none_spec (s1.chunks.length + s1.leftover.length) s1.leftover
      s1.chunks le_rfl M 0 hM
  refine ⟨0 + d1, 0 + d2, s1, s2, heq1, hdrop1, ?_, ?_, ?_⟩
  · show readExactGo false none 0 M s1.leftover s1.chunks = _
    rw [heq2]
    show Except.ok ((TransportState.mk s1.leftover s1.chunks).avail.take M, 0 + d2, s2) = _
    have hs1 : (TransportState.mk s1.leftover s1.chunks).avail = s.avail.drop N := hdrop1
    rw [hs1]
  · have hs1 : (TransportState.mk s1.leftover s1.chunks).avail = s.avail.drop N := hdrop1
    rw [hdrop2, hs1, List.drop_drop, Nat.add_comm]
  · rw [← List.take_add]

def c1State : TransportState := ⟨[], [⟨5, [1, 2]⟩, ⟨7, [3, 4, 5]⟩]⟩

/-- Witness for C1 at a concrete two-chunk stream, reading 3 then 2 bytes. -/
theorem readExact_exact_framing_witness :
    3 + 2 ≤ c1State.avail.length ∧
    (∃ e1 e2 s1 s2,
      readExact false none 3 c1State = .ok (c1State.avail.take 3, e1, s1) ∧
      s1.avail = c1State.avail.drop 3 ∧
      readExact false none 2 s1 = .ok ((c1State.avail.drop 3).take 2, e2, s2) ∧
      s2.avail = c1State.avail.drop (3 + 2) ∧
      c1State.avail.take 3 ++ (c1State.avail.drop 3).take 2 =
        c1State.avail.take (3 + 2)) :=
  ⟨by decide, readExact_exact_framing c1State 3 2 (by decide)⟩

/-- C10: while the leftover buffer is non-empty, `readChunk` returns the
leftover bytes and clears the buffer without touching the physical stream,
and it cannot fail — the leftover branch runs before the abort-signal and
timeout checks, for every value of the abort flag and of the timeout. -/
theorem readChunk_leftover_priority (s : TransportState) (h : s.leftover ≠ [])
    (aborted : Bool) (budget : Option Nat) :
    readChunk aborted budget s = .ok (some s.leftover, 0, ⟨[], s.chunks⟩) ∧
    ∀ e, readChunk aborted budget s ≠ .error e := by
  have heq := readChunk_leftover_branch aborted budget s h
  refine ⟨heq, fun e he => ?_⟩
  rw [heq] at he
  exact Except.noConfusion he

/-- Witness for C10: leftover `[9, 8]` is returned untouched even with an
already-fired abort signal (`aborted = true`) and a zero timeout budget. -/
theorem readChunk_leftover_priority_witness :
    ((⟨[9, 8], [⟨3, [1]⟩]⟩ : TransportState).leftover ≠ []) ∧
    (readChunk true (some 0) ⟨[9, 8], [⟨3, [1]⟩]⟩ =
        .ok (some [9, 8], 0, ⟨[], [⟨3, [1]⟩]⟩) ∧
      ∀ e, readChunk true (some 0) ⟨[9, 8], [⟨3, [1]⟩]⟩ ≠ .error e) :=
  ⟨by decide, readChunk_leftover_priority _ (by decide) true (some 0)⟩

/-- Accumulated arrival time of the `need`-th missing byte: chunks are
consumed in order, each contributing its delay; `none` when the stream
ends before `need` bytes arrive. -/
def arrivalGo : Nat → List Chunk → Nat → Option Nat
  | _, [], _ => none
  | need, c :: cs, t =>
    if need ≤ c.bytes.length then some (t + c.delay)
    else arrivalGo (need - c.bytes.length) cs (t + c.delay)

/-- Time at which the transport can have produced `n` bytes: `0` when the
leftover buffer already holds them, otherwise the arrival time of the
physical chunk containing the `n`-th byte. -/
def arrivalTime (n : Nat) (s : TransportState) : Option Nat :=
  if n ≤ s.leftover.length then some 0
  else arrivalGo (n - s.leftover.length) s.chunks 0

theorem arrivalGo_shift (cs : List Chunk) :
    ∀ (need a t : Nat),
      arrivalGo need cs (a + t) = (arrivalGo need cs t).map (a + ·) := by
  induction cs with
  | nil => intro need a t; rfl
  | cons c rest ih =>
    intro need a t
    by_cases hex : need ≤ c.bytes.length
    · simp [arrivalGo, hex, Nat.add_assoc]
    · simp only [arrivalGo, hex, if_false]
      rw [Nat.add_assoc]
      exact ih (need - c.bytes.length) a (t + c.delay)

theorem arrivalGo_ge (cs : List Chunk) :
    ∀ (need t A : Nat), arrivalGo need cs t = some A → t ≤ A := by
  induction cs with
  | nil => intro need t A h; exact Option.noConfusion h
  | cons c rest ih =>
    intro need t A h
    by_cases hex : need ≤ c.bytes.length
    · simp [arrivalGo, hex] at h
      omega
    · simp only [arrivalGo, hex, if_false] at h
      have := ih (need - c.bytes.length) (t + c.delay) A h
      omega

theorem readExactGo_timed_leftover (T elapsed needed : Nat) (l : Nat)
    (ls : List Nat) (cs : List Chunk) (h : needed ≠ 0) (hT : elapsed < T) :
    readExactGo false (some T) elapsed needed (l :: ls) cs =
      if needed ≤ (l :: ls).length then
        .ok ((l :: ls).take needed, elapsed + 0,
          ⟨if needed < (l :: ls).length then (l :: ls).drop needed else [], cs⟩)
      else
        match readExactGo false (some T) (elapsed + 0)
            (needed - (l :: ls).length) [] cs with
        | .ok (restBytes, e2, s2) => .ok ((l :: ls) ++ restBytes, e2, s2)
        | .error e => .error e := by
  conv_lhs => rw [readExactGo]
  simp only [h, if_false]
  rw [show remainingBudget (some T) elapsed = .ok (some (T - elapsed)) by
    simp [remainingBudget]; omega]

theorem readExactGo_timed_cons (T elapsed needed : Nat) (c : Chunk)
    (rest : List Chunk) (h : needed ≠ 0) (hT : elapsed < T) :
    readExactGo false (some T) elapsed needed [] (c :: rest) =
      if T - elapsed ≤ c.delay then .error .timeoutErr
      else
        if needed ≤ c.bytes.length then
          .ok (c.bytes.take needed, elapsed + c.delay,
            ⟨if needed < c.bytes.length then c.bytes.drop needed else [], rest⟩)
        else
          match readExactGo false (some T) (elapsed + c.delay)
              (needed - c.bytes.length) [] rest with
          | .ok (restBytes, e2, s2) => .ok (c.bytes ++ restBytes, e2, s2)
          | .error e => .error e := by
  conv_lhs => rw [readExactGo]
  simp only [h, if_false]
  rw [show remainingBudget (some T) elapsed = .ok (some (T - elapsed)) by
    simp [remainingBudget]; omega]
  obtain ⟨b, hb⟩ : ∃ b, T - elapsed = b + 1 := ⟨T - elapsed - 1, by omega⟩
  rw [hb]
  rfl

/-- Correctness of the `readExact` loop under a deadline `T`: the whole
operation is governed by the single deadline — it succeeds (with the right
bytes, finishing at the arrival time `A` of the last needed byte) exactly
when `A` falls strictly inside the remaining budget, and it fails with
`TimeoutError` as soon as the accumulated arrival time reaches the
deadline, regardless of how the bytes are split into chunks. -/
theorem readExactGo_timed_spec :
    ∀ (m : Nat) (lo : List Nat) (cs : List Chunk), cs.length + lo.length ≤ m →
    ∀ (needed elapsed T A : Nat),
      arrivalTime needed (TransportState.mk lo cs) = some A →
      elapsed < T →
      ((elapsed + A < T →
        ∃ s', readExactGo false (some T) elapsed needed lo cs =
            .ok ((TransportState.mk lo cs).avail.take needed, elapsed + A, s') ∧
          s'.avail = (TransportState.mk lo cs).avail.drop needed ∧
          List.IsSuffix s'.chunks cs) ∧
       (T ≤ elapsed + A →
        readExactGo false (some T) elapsed needed lo cs = .error .timeoutErr)) := by
  intro m
  induction m with
  | zero =>
    intro lo cs hm needed elapsed T A hA hT
    match lo, cs with
    | [], [] =>
      have hn0 : needed = 0 := by
        unfold arrivalTime at hA
        by_cases h0 : needed ≤ ([] : List Nat).length
        · simpa using h0
        · rw [if_neg h0] at hA
          exact absurd hA (by simp [arrivalGo])
      have hA0 : A = 0 := by
        unfold arrivalTime at hA
        rw [if_pos (by simp [hn0])] at hA
        exact (Option.some.inj hA).symm
      constructor
      · intro _
        refine ⟨⟨[], []⟩, ?_, ?_, List.suffix_refl _⟩
        · rw [hn0, readExactGo_zero]
          simp [hA0, avail_mk_nil]
        · simp [hn0, avail_mk_nil]
      · intro hcon
        omega
    | l :: ls, _ => simp at hm
    | _, c :: rest => simp at hm
  | succ m ih =>
    intro lo cs hm needed elapsed T A hA hT
    by_cases h0 : needed = 0
    · have hA0 : A = 0 := by
        unfold arrivalTime at hA
        rw [if_pos (by rw [h0]; exact Nat.zero_le _)] at hA
        exact (Option.some.inj hA).symm
      constructor
      · intro _
        refine ⟨⟨lo, cs⟩, ?_, ?_, List.suffix_refl _⟩
        · rw [h0, readExactGo_zero]
          simp [hA0]
        · simp [h0]
      · intro hcon
        omega
    · match lo, cs with
      | [], [] =>
        exfalso
        unfold arrivalTime at hA
        rw [if_neg (by simpa using h0)] at hA
        exact absurd hA (by simp [arrivalGo])
      | l :: ls, cs =>
        rw [readExactGo_timed_leftover T elapsed needed l ls cs h0 hT]
        by_cases hex : needed ≤ (l :: ls).length
        · have hA0 : A = 0 := by
            unfold arrivalTime at hA
            rw [if_pos hex] at hA
            exact (Option.some.inj hA).symm
          rw [if_pos hex]
          constructor
          · intro _
            obtain ⟨ht, hd⟩ := frame_exit (l :: ls) (TransportState.mk [] cs).avail
              needed hex
            refine ⟨⟨if needed < (l :: ls).length then (l :: ls).drop needed
              else [], cs⟩, ?_, ?_, List.suffix_refl _⟩
            · rw [avail_mk_cons_lo, ht, hA0]
            · rw [avail_mk_cons_lo, ← hd]
              show (if needed < (l :: ls).length then (l :: ls).drop needed
                else []) ++ (cs.map Chunk.bytes).flatten = _
              rfl
          · intro hcon
            omega
        · rw [if_neg hex]
          have hgt : (l :: ls).length < needed := by omega
          have hA' : arrivalTime (needed - (l :: ls).length)
              (TransportState.mk [] cs) = some A := by
            unfold arrivalTime at hA ⊢
            rw [if_neg hex] at hA
            rw [if_neg (by simp only [List.length_nil]; omega)]
            simpa using hA
          have hmeas : cs.length + ([] : List Nat).length ≤ m := by
            simp only [List.length_cons, List.length_nil] at hm ⊢
            omega
          obtain ⟨ihs, iht⟩ := ih [] cs hmeas (needed - (l :: ls).length)
            (elapsed + 0) T A hA' (by omega)
          constructor
          · intro hlt
            obtain ⟨s', heq, hdrop, hsuf⟩ := ihs (by omega)
            rw [heq]
            obtain ⟨ht, hd⟩ := frame_cont (l :: ls) (TransportState.mk [] cs).avail
              needed (by omega)
            refine ⟨s', ?_, ?_, hsuf⟩
            · rw [avail_mk_cons_lo, ← ht]
              simp
            · rw [hdrop, avail_mk_cons_lo, ← hd]
          · intro hge
            rw [iht (by omega)]
      | [], c :: rest =>
        rw [readExactGo_timed_cons T elapsed needed c rest h0 hT]
        have hAcases : (needed ≤ c.bytes.length ∧ A = c.delay) ∨
            (¬ needed ≤ c.bytes.length ∧
              ∃ A', arrivalGo (needed - c.bytes.length) rest 0 = some A' ∧
                A = c.delay + A') := by
          unfold arrivalTime at hA
          rw [if_neg (by simp only [List.length_nil]; omega)] at hA
          simp only [arrivalGo, List.length_nil, Nat.sub_zero] at hA
          by_cases hex : needed ≤ c.bytes.length
          · left
            rw [if_pos hex] at hA
            refine ⟨hex, ?_⟩
            have := Option.some.inj hA
            omega
          · right
            refine ⟨hex, ?_⟩
            rw [if_neg hex] at hA
            have hsh := arrivalGo_shift rest (needed - c.bytes.length) c.delay 0
            rw [show c.delay + 0 = 0 + c.delay by omega] at hsh
            rw [hsh] at hA
            obtain ⟨A', hA', hAeq⟩ := Option.map_eq_some'.mp hA
            exact ⟨A', hA', hAeq.symm⟩
        have hAge : c.delay ≤ A := by
          rcases hAcases with ⟨_, hAe⟩ | ⟨_, A', _, hAe⟩ <;> omega
        by_cases hto : T - elapsed ≤ c.delay
        · rw [if_pos hto]
          constructor
          · intro hlt
            exfalso
            omega
          · intro _
            rfl
        · rw [if_neg hto]
          rcases hAcases with ⟨hex, hAe⟩ | ⟨hex, A', hA', hAe⟩
          · rw [if_pos hex]
            constructor
            · intro _
              obtain ⟨ht, hd⟩ := frame_exit c.bytes
                (TransportState.mk [] rest).avail needed hex
              refine ⟨⟨if needed < c.bytes.length then c.bytes.drop needed
                else [], rest⟩, ?_, ?_, List.suffix_cons c rest⟩
              · rw [avail_mk_cons_chunk, ht, hAe]
              · rw [avail_mk_cons_chunk, ← hd]
                show (if needed < c.bytes.length then c.bytes.drop needed
                  else []) ++ (rest.map Chunk.bytes).flatten = _
                rfl
            · intro hge
              exfalso
              omega
          · rw [if_neg hex]
            have hA'' : arrivalTime (needed - c.bytes.length)
                (TransportState.mk [] rest) = some A' := by
              unfold arrivalTime
              rw [if_neg (by simp only [List.length_nil]; omega)]
              simpa using hA'
            have hmeas : rest.length + ([] : List Nat).length ≤ m := by
              simp only [List.length_cons, List.length_nil] at hm ⊢
              omega
            obtain ⟨ihs, iht⟩ := ih [] rest hmeas (needed - c.bytes.length)
              (elapsed + c.delay) T A' hA'' (by omega)
            constructor
            · intro hlt
              obtain ⟨s', heq, hdrop, hsuf⟩ := ihs (by omega)
              rw [heq]
              obtain ⟨ht, hd⟩ := frame_cont c.bytes
                (TransportState.mk [] rest).avail needed (by omega)
              refine ⟨s', ?_, ?_, hsuf.trans (List.suffix_cons c rest)⟩
              · rw [avail_mk_cons_chunk, ← ht]
                have harith : elapsed + c.delay + A' = elapsed + A := by omega
                rw [harith]
              · rw [hdrop, avail_mk_cons_chunk, ← hd]
            · intro hge
              rw [iht (by omega)]

/-- The single-deadline behaviour of `readExact`, shared with the
zero-delay corollary used by the protocol layer. -/
theorem readExact_deadline_aux (s : TransportState) (n T A : Nat)
    (hT : 0 < T) (hA : arrivalTime n s = some A) :
    (A < T → ∃ s', readExact false (some T) n s =
        .ok (s.avail.take n, A, s') ∧ s'.avail = s.avail.drop n ∧
      List.IsSuffix s'.chunks s.chunks) ∧
    (T ≤ A → readExact false (some T) n s = .error .timeoutErr) := by
  have hmatch : (match some T with
      | some 0 => (none : Option Nat)
      | t => t) = some T := by
    cases T with
    | zero => exact absurd hT (by simp)
    | succ k => rfl
  obtain ⟨hs, ht⟩ := readExactGo_timed_spec (s.chunks.length + s.leftover.length)
    s.leftover s.chunks le_rfl n 0 T A hA hT
  constructor
  · intro hlt
    obtain ⟨s', heq, hdrop, hsuf⟩ := hs (by omega)
    refine ⟨s', ?_, hdrop, hsuf⟩
    show readExactGo false _ 0 n s.leftover s.chunks = _
    rw [hmatch, heq]
    show Except.ok ((TransportState.mk s.leftover s.chunks).avail.take n, 0 + A, s') = _
    rw [Nat.zero_add]
  · intro hge
    show readExactGo false _ 0 n s.leftover s.chunks = _
    rw [hmatch, ht (by omega)]

/-- C2: for `readExact(n, {timeout})` with a positive timeout the timeout
is a single deadline for the whole operation: each sub-read runs against
the remaining budget (`timeout - elapsed`), so the call succeeds exactly
when the `n`-th byte arrives strictly within the deadline `T` (returning
the correct bytes at total elapsed time `A`), and fails with
`TimeoutError` whenever the budget is exhausted (`T ≤ A`) before `n`
bytes are collected — independently of how the bytes are chunked. -/
theorem readExact_single_deadline (s : TransportState) (n T A : Nat)
    (hT : 0 < T) (hA : arrivalTime n s = some A) :
    (A < T → ∃ s', readExact false (some T) n s =
        .ok (s.avail.take n, A, s') ∧ s'.avail = s.avail.drop n ∧
      List.IsSuffix s'.chunks s.chunks) ∧
    (T ≤ A → readExact false (some T) n s = .error .timeoutErr) :=
  readExact_deadline_aux s n T A hT hA

def c2State : TransportState := ⟨[], [⟨40, [1, 2]⟩, ⟨80, [3, 4]⟩]⟩

/-- Witness for C2: two chunks arriving at cumulative times 40 and 120;
with deadline 100 the read of 4 bytes times out, with deadline 200 it
returns all 4 bytes at elapsed time 120. -/
theorem readExact_single_deadline_witness :
    (arrivalTime 4 c2State = some 120 ∧
      readExact false (some 100) 4 c2State = .error .timeoutErr) ∧
    (∃ s', readExact false (some 200) 4 c2State =
        .ok (c2State.avail.take 4, 120, s') ∧
      s'.avail = c2State.avail.drop 4 ∧
      List.IsSuffix s'.chunks c2State.chunks) :=
  ⟨⟨by decide,
    (readExact_single_deadline c2State 4 100 120 (by decide) (by decide)).2
      (by decide)⟩,
   (readExact_single_deadline c2State 4 200 120 (by decide) (by decide)).1
     (by decide)⟩

/-! ## STM32 bootloader protocol (`Stm32BootloaderProtocol.ts`, `constants.ts`) -/

/-- JavaScript `n.toString(16)`: lowercase hexadecimal, no padding. -/
def hexStr (n : Nat) : String :=
  String.mk (Nat.toDigits 16 n)

/-- JavaScript `n.toString(16).padStart(2, "0")` for a byte value. -/
def hexByte (b : Nat) : String :=
  (if b < 16 then "0" else "") ++ hexStr b

/-- Wire constants from `constants.ts` (`BOOTLOADER_PROTOCOL`). -/
def ACK : Nat := 0x79

def NACK : Nat := 0x1f

/-- XOR checksum over all payload bytes (`calculateChecksum`). -/
def calculateChecksum (data : List Nat) : Nat :=
  data.foldl (fun a b => a ^^^ b) 0

/-- `appendChecksum`: payload followed by its XOR checksum. -/
def appendChecksum (data : List Nat) : List Nat :=
  data ++ [calculateChecksum data]

/-- `expectAck` as a function of the single byte read from the transport:
NACK fails with the dedicated message, any other non-ACK byte fails with a
message carrying the byte in hex, ACK succeeds. -/
def expectAckByte (b : Nat) : Except SerialErr Unit :=
  if b = NACK then .error (.protocolErr "Received NACK from bootloader")
  else if b ≠ ACK then
    .error (.protocolErr ("Expected ACK (0x79), received 0x" ++ hexByte b))
  else .ok ()

theorem nack_msg_ne_generic (x : String) :
    ("Received NACK from bootloader" : String) ≠
      "Expected ACK (0x79), received 0x" ++ x := by
  intro h
  have hlen := congrArg String.length h
  rw [String.length_append] at hlen
  have h1 : ("Received NACK from bootloader" : String).length = 29 := by decide
  have h2 : ("Expected ACK (0x79), received 0x" : String).length = 32 := by decide
  omega

/-- C3: `expectAck` succeeds exactly when the byte read is ACK (0x79); a
NACK byte (0x1f) yields the dedicated `ProtocolError` message, any other
non-ACK byte yields a `ProtocolError` carrying the received byte in hex,
and the NACK message is distinct from every such generic message. -/
theorem expectAck_spec (b : Nat) :
    (expectAckByte b = .ok () ↔ b = ACK) ∧
    expectAckByte NACK = .error (.protocolErr "Received NACK from bootloader") ∧
    (b ≠ ACK → b ≠ NACK →
      expectAckByte b =
        .error (.protocolErr ("Expected ACK (0x79), received 0x" ++ hexByte b))) ∧
    (∀ x, ("Received NACK from bootloader" : String) ≠
      "Expected ACK (0x79), received 0x" ++ x) := by
  refine ⟨?_, rfl, ?_, nack_msg_ne_generic⟩
  · constructor
    · intro h
      unfold expectAckByte at h
      by_cases h1 : b = NACK
      · rw [if_pos h1] at h
        exact Except.noConfusion h
      · rw [if_neg h1] at h
        by_cases h2 : b = ACK
        · exact h2
        · rw [if_pos h2] at h
          exact Except.noConfusion h
    · intro h
      unfold expectAckByte
      rw [h]
      rfl
  · intro hack hnack
    unfold expectAckByte
    rw [if_neg hnack, if_pos hack]

/-- Witness for C3 at the bytes 0x42 (generic non-ACK), 0x79 (ACK) and
0x1f (NACK). -/
theorem expectAck_spec_witness :
    expectAckByte 0x42 =
      .error (.protocolErr ("Expected ACK (0x79), received 0x" ++ hexByte 0x42)) ∧
    expectAckByte 0x79 = .ok () ∧
    expectAckByte 0x1f = .error (.protocolErr "Received NACK from bootloader") :=
  ⟨(expectAck_spec 0x42).2.2.1 (by decide) (by decide),
   (expectAck_spec 0x79).1.mpr rfl,
   (expectAck_spec 0x1f).2.1⟩

/-- Chip parameters from `constants.ts` (`CHIP_PARAMETERS`). -/
def FLASH_PAGE_SIZE : Nat := 1024

def PROGRAM_FLASH_SIZE : Nat := 65536

def PRODUCT_ID : Nat := 0x417

/-- The second transport write issued by `erasePages(pages)`: two bytes of
`pages.length - 1` big-endian, two big-endian bytes per page index, and
the XOR checksum (each byte truncated by the `Uint8Array` store). -/
def erasePagesPayload (pages : List Nat) : List Nat :=
  appendChecksum
    ((pages.length - 1) / 256 % 256 :: (pages.length - 1) % 256 ::
      (pages.map (fun p => [p / 256 % 256, p % 256])).flatten)

/-- `eraseAll` page count: `Math.ceil(PROGRAM_FLASH_SIZE / FLASH_PAGE_SIZE)`. -/
def eraseAllNumPages : Nat :=
  (PROGRAM_FLASH_SIZE + FLASH_PAGE_SIZE - 1) / FLASH_PAGE_SIZE

/-- The second write issued by `eraseAll`: it delegates to `erasePages`
over pages `0 .. eraseAllNumPages - 1`. -/
def eraseAllSecondWrite : List Nat :=
  erasePagesPayload (List.range eraseAllNumPages)

set_option maxRecDepth 4096 in
/-- C4 (evaluation at the failing configuration): with the configured
chip parameters (64KB flash, 1KB pages) `eraseAll` computes 64 pages, so
its second write begins `[0x00, 0x3f, 0x00, 0x00, 0x00, 0x01]` — not
`[0x01, 0xff, ...]` as the spec and the repository's own test
(`should erase all correctly (page-by-page)`) demand; the tested
`count - 1 = 511` value would require 128-byte pages (512 pages). -/
theorem eraseAll_payload_eval :
    eraseAllNumPages = 64 ∧
    eraseAllSecondWrite.take 6 = [0x00, 0x3f, 0x00, 0x00, 0x00, 0x01] ∧
    eraseAllSecondWrite.take 2 ≠ [0x01, 0xff] ∧
    (erasePagesPayload (List.range ((65536 + 127) / 128))).take 6 =
      [0x01, 0xff, 0x00, 0x00, 0x00, 0x01] := by
  refine ⟨rfl, by decide, by decide, by decide⟩

/-- The two-byte `WRITE_MEMORY` command frame `[0x31, 0x31 ^ 0xff]`. -/
def WRITE_MEMORY_CMD : List Nat := [0x31, 0x31 ^^^ 0xff]

/-- `writeMemory(address, data)` interaction trace: returns the list of
transport writes performed (in order) and the outcome, the device
answering each `expectAck` read with the next byte of `acks`. -/
def writeMemoryModel (address : Nat) (data : List Nat) (acks : List Nat) :
    List (List Nat) × Except SerialErr Unit :=
  if 256 < data.length ∨ data.length = 0 ∨ data.length % 4 ≠ 0 then
    ([], .error (.protocolErr
      ("Invalid data length for writeMemory: " ++ toString data.length)))
  else
    match acks with
    | [] => ([WRITE_MEMORY_CMD], .error .connErr)
    | a1 :: acks1 =>
      match expectAckByte a1 with
      | .error e => ([WRITE_MEMORY_CMD], .error e)
      | .ok _ =>
        let w2 := appendChecksum [address / 2 ^ 24 % 256, address / 2 ^ 16 % 256,
          address / 2 ^ 8 % 256, address % 256]
        match acks1 with
        | [] => ([WRITE_MEMORY_CMD, w2], .error .connErr)
        | a2 :: acks2 =>
          match expectAckByte a2 with
          | .error e => ([WRITE_MEMORY_CMD, w2], .error e)
          | .ok _ =>
            let w3 := appendChecksum ((data.length - 1) :: data)
            match acks2 with
            | [] => ([WRITE_MEMORY_CMD, w2, w3], .error .connErr)
            | a3 :: _ =>
              match expectAckByte a3 with
              | .error e => ([WRITE_MEMORY_CMD, w2, w3], .error e)
              | .ok _ => ([WRITE_MEMORY_CMD, w2, w3], .ok ())

/-- C5: `writeMemory` rejects data of length 0, length above 256 or
length not a multiple of 4 with a `ProtocolError`, performing no
transport write at all; for every length in 1..256 that is a multiple of
4 the validation passes and the command frame reaches the wire first,
whatever the device answers. -/
theorem writeMemory_validation (address : Nat) (data : List Nat)
    (acks : List Nat) :
    ((data.length = 0 ∨ 256 < data.length ∨ data.length % 4 ≠ 0) →
      writeMemoryModel address data acks =
        ([], .error (.protocolErr
          ("Invalid data length for writeMemory: " ++ toString data.length)))) ∧
    (1 ≤ data.length → data.length ≤ 256 → data.length % 4 = 0 →
      (writeMemoryModel address data acks).1.head? = some WRITE_MEMORY_CMD) := by
  constructor
  · intro h
    unfold writeMemoryModel
    rw [if_pos (by omega)]
  · intro h1 h2 h3
    unfold writeMemoryModel
    rw [if_neg (by omega)]
    cases acks with
    | nil => rfl
    | cons a1 acks1 =>
      cases hE1 : expectAckByte a1 with
      | error e => simp only [hE1]; rfl
      | ok u =>
        simp only [hE1]
        cases acks1 with
        | nil => rfl
        | cons a2 acks2 =>
          cases hE2 : expectAckByte a2 with
          | error e => simp only [hE2]; rfl
          | ok u2 =>
            simp only [hE2]
            cases acks2 with
            | nil => rfl
            | cons a3 acks3 =>
              cases hE3 : expectAckByte a3 with
              | error e => simp only [hE3]; rfl
              | ok u3 => simp only [hE3]; rfl

/-- Witness for C5: length 3 is rejected with no writes; length 4 passes
validation and the `WRITE_MEMORY` frame is the first write. -/
theorem writeMemory_validation_witness :
    writeMemoryModel 0x8000000 [1, 2, 3] [] =
      ([], .error (.protocolErr
        ("Invalid data length for writeMemory: " ++
          toString (List.length [1, 2, 3])))) ∧
    (writeMemoryModel 0x8000000 [1, 2, 3, 4] []).1.head? =
      some WRITE_MEMORY_CMD :=
  ⟨(writeMemory_validation 0x8000000 [1, 2, 3] []).1
      (Or.inr (Or.inr (by decide))),
   (writeMemory_validation 0x8000000 [1, 2, 3, 4] []).2 (by decide) (by decide)
     (by decide)⟩

/-! ## Length-prefixed request/response protocol (`ProtobufProtocol.ts`) -/

theorem arrivalGo_zeroDelay (cs : List Chunk) :
    ∀ (need : Nat), 0 < need → need ≤ (cs.map Chunk.bytes).flatten.length →
    (∀ c ∈ cs, c.delay = 0) → arrivalGo need cs 0 = some 0 := by
  induction cs with
  | nil =>
    intro need h1 h2 _
    simp at h2
    omega
  | cons c rest ih =>
    intro need h1 h2 hz
    have hcd : c.delay = 0 := hz c (by simp)
    by_cases hex : need ≤ c.bytes.length
    · simp [arrivalGo, hex, hcd]
    · simp only [arrivalGo, hex, if_false, hcd, Nat.add_zero]
      refine ih (need - c.bytes.length) (by omega) ?_
        (fun d hd => hz d (by simp [hd]))
      simp at h2 ⊢
      omega

theorem arrivalTime_zeroDelay (n : Nat) (s : TransportState)
    (hz : ∀ c ∈ s.chunks, c.delay = 0) (hn : n ≤ s.avail.length) :
    arrivalTime n s = some 0 := by
  unfold arrivalTime
  by_cases hlo : n ≤ s.leftover.length
  · rw [if_pos hlo]
  · rw [if_neg hlo]
    refine arrivalGo_zeroDelay s.chunks (n - s.leftover.length) (by omega) ?_ hz
    unfold TransportState.avail at hn
    simp at hn ⊢
    omega

/-- On an instantaneous stream (all chunk delays zero) `readExact` with any
positive timeout behaves like the pure framing read. -/
theorem readExact_zeroDelay (s : TransportState) (T n : Nat) (hT : 0 < T)
    (hz : ∀ c ∈ s.chunks, c.delay = 0) (hn : n ≤ s.avail.length) :
    ∃ s', readExact false (some T) n s = .ok (s.avail.take n, 0, s') ∧
      s'.avail = s.avail.drop n ∧ ∀ c ∈ s'.chunks, c.delay = 0 := by
  have hA := arrivalTime_zeroDelay n s hz hn
  obtain ⟨s', heq, hdrop, hsuf⟩ :=
    (readExact_deadline_aux s n T 0 hT hA).1 (by omega)
  exact ⟨s', heq, hdrop, fun c hc => hz c (hsuf.subset hc)⟩

/-- `ProtobufProtocol.sendRequest` over an already-serialized request
payload: returns the transport writes, the list of `readExact` request
lengths, and the raw response bytes handed to the deserializer (empty for
a zero response length, produced without a second read). -/
def sendRequestModel (payload : List Nat) (s : TransportState) :
    List (List Nat) × List Nat × Except SerialErr (List Nat) :=
  if 127 < payload.length then
    ([], [], .error (.protocolErr "Request too long (max 127 bytes)"))
  else
    let w := payload.length :: payload
    match readExact false (some 1000) 1 s with
    | .error e => ([w], [1], .error e)
    | .ok (lb, _, s1) =>
      let L := lb.headD 0
      if 127 < L then
        ([w], [1], .error (.protocolErr "Response too long (max 127 bytes)"))
      else if L = 0 then ([w], [1], .ok [])
      else
        match readExact false (some 1000) L s1 with
        | .error e => ([w], [1, L], .error e)
        | .ok (bytes, _, _) => ([w], [1, L], .ok bytes)

/-- C6: `sendRequest` fails with `ProtocolError` (writing nothing) when
the serialized payload exceeds 127 bytes; otherwise it writes
`[length, ...payload]`, reads exactly one response-length byte `L`, fails
with `ProtocolError` when `L > 127`, returns an empty response without a
further read when `L = 0`, and otherwise reads exactly `L` bytes and
returns them for deserialization.  The device byte stream is modelled
with instantaneous chunks whose concatenation starts with `L`. -/
theorem sendRequest_spec (payload : List Nat) (s : TransportState)
    (L : Nat) (rest : List Nat) (hz : ∀ c ∈ s.chunks, c.delay = 0)
    (hav : s.avail = L :: rest) :
    (127 < payload.length →
      sendRequestModel payload s =
        ([], [], .error (.protocolErr "Request too long (max 127 bytes)"))) ∧
    (payload.length ≤ 127 →
      (sendRequestModel payload s).1 = [payload.length :: payload] ∧
      (127 < L → (sendRequestModel payload s).2 =
        ([1], .error (.protocolErr "Response too long (max 127 bytes)"))) ∧
      (L = 0 → (sendRequestModel payload s).2 = ([1], .ok [])) ∧
      (0 < L → L ≤ 127 → L ≤ rest.length →
        (sendRequestModel payload s).2 = ([1, L], .ok (rest.take L)))) := by
  have hn1 : 1 ≤ s.avail.length := by rw [hav]; simp
  obtain ⟨s1, heq1, hdrop1, hz1⟩ := readExact_zeroDelay s 1000 1 (by omega) hz hn1
  have htake1 : s.avail.take 1 = [L] := by rw [hav]; rfl
  have hdrop1' : s1.avail = rest := by rw [hdrop1, hav]; rfl
  constructor
  · intro hbig
    unfold sendRequestModel
    rw [if_pos hbig]
  · intro hsmall
    have hno : ¬ 127 < payload.length := by omega
    unfold sendRequestModel
    rw [if_neg hno, heq1, htake1]
    simp only [List.headD_cons]
    refine ⟨?_, ?_, ?_, ?_⟩
    · split
      · rfl
      · split
        · rfl
        · split <;> rfl
    · intro hL
      rw [if_pos hL]
    · intro hL0
      rw [if_neg (by omega), if_pos hL0]
    · intro hLpos hLle hLrest
      rw [if_neg (by omega), if_neg (by omega)]
      have hn2 : L ≤ s1.avail.length := by rw [hdrop1']; exact hLrest
      obtain ⟨s2, heq2, _, _⟩ := readExact_zeroDelay s1 1000 L (by omega) hz1 hn2
      rw [heq2, hdrop1']

/-- Witness for C6 at a concrete stream `[2,5,6,7]` delivered in two
instantaneous chunks and payload `[9,9]`: the request is framed as
`[2,9,9]`, one length byte and then `L = 2` bytes are read, and the raw
response handed to the deserializer is `[5,6]`. -/
theorem sendRequest_spec_witness :
    (sendRequestModel [9, 9] ⟨[], [⟨0, [2]⟩, ⟨0, [5, 6, 7]⟩]⟩).1 =
      [[2, 9, 9]] ∧
    (sendRequestModel [9, 9] ⟨[], [⟨0, [2]⟩, ⟨0, [5, 6, 7]⟩]⟩).2 =
      ([1, 2], .ok [5, 6]) := by
  have h := sendRequest_spec [9, 9] ⟨[], [⟨0, [2]⟩, ⟨0, [5, 6, 7]⟩]⟩ 2 [5, 6, 7]
    (by decide) (by rfl)
  obtain ⟨_, h2⟩ := h
  obtain ⟨h1, _, _, h4⟩ := h2 (by decide)
  exact ⟨h1, h4 (by decide) (by decide) (by decide)⟩

/-! ## Serialized-operation scheduler (`SerialService.runOperation`) -/

/-- When (if at all) the cancellation signal of a queued call fires:
before the call is entered (the initial `signal.aborted` check throws
before the call chains itself onto the lock), or while the call is
waiting for the current holder (the `Promise.race` rejects, and the
`finally` still releases the connection locks and hands the turn on). -/
inductive CancelMode where
  | noCancel
  | beforeEntry
  | whileWaiting
deriving DecidableEq, Repr

/-- A queued operation: its cancellation fate and its body, which acts on
the transport leftover buffer and yields an outcome. -/
structure SchedOp where
  cancel : CancelMode
  body : List Nat → Except SerialErr Unit × List Nat

/-- Observable scheduler events, tagged with the operation index:
`cleared i` = `transport.clearLeftover()` before running body `i`,
`ran i lo` = body `i` started with leftover buffer `lo`,
`released i` = `connection.releaseLocks()` and hand-over after call `i`. -/
inductive SchedEv where
  | cleared (i : Nat)
  | ran (i : Nat) (leftoverIn : List Nat)
  | released (i : Nat)
deriving DecidableEq, Repr

/-- The promise-chain lock of `SerialService.runOperation`, modelled as
sequential processing in arrival (FIFO) order: each call waits for the
previous holder; a call cancelled before its turn never runs its body but
still unblocks the queue; a call that runs gets the leftover buffer
cleared first, and releases locks and hands the turn on regardless of its
body's outcome. -/
def runQueue : List SchedOp → Nat → List Nat →
    List (Except SerialErr Unit) × List SchedEv × List Nat
  | [], _, lo => ([], [], lo)
  | op :: ops, i, lo =>
    match op.cancel with
    | .beforeEntry =>
      let r := runQueue ops (i + 1) lo
      (.error .abortErr :: r.1, r.2.1, r.2.2)
    | .whileWaiting =>
      let r := runQueue ops (i + 1) lo
      (.error .abortErr :: r.1, .released i :: r.2.1, r.2.2)
    | .noCancel =>
      let b := op.body []
      let r := runQueue ops (i + 1) b.2
      (b.1 :: r.1,
        .cleared i :: .ran i [] :: .released i :: r.2.1, r.2.2)

/-- Index of a `ran` event. -/
def ranIdx : SchedEv → Option Nat
  | .ran i _ => some i
  | _ => none

/-- Indices that are expected to run: the non-cancelled ones, in order. -/
def ranExpect : List SchedOp → Nat → List Nat
  | [], _ => []
  | op :: ops, i =>
    if op.cancel = .noCancel then i :: ranExpect ops (i + 1)
    else ranExpect ops (i + 1)

theorem runQueue_cons_beforeEntry (op : SchedOp) (ops : List SchedOp)
    (i : Nat) (lo : List Nat) (h : op.cancel = .beforeEntry) :
    runQueue (op :: ops) i lo =
      (.error .abortErr :: (runQueue ops (i + 1) lo).1,
        (runQueue ops (i + 1) lo).2.1, (runQueue ops (i + 1) lo).2.2) := by
  conv_lhs => rw [runQueue]
  rw [h]

theorem runQueue_cons_whileWaiting (op : SchedOp) (ops : List SchedOp)
    (i : Nat) (lo : List Nat) (h : op.cancel = .whileWaiting) :
    runQueue (op :: ops) i lo =
      (.error .abortErr :: (runQueue ops (i + 1) lo).1,
        .released i :: (runQueue ops (i + 1) lo).2.1,
        (runQueue ops (i + 1) lo).2.2) := by
  conv_lhs => rw [runQueue]
  rw [h]

theorem runQueue_cons_noCancel (op : SchedOp) (ops : List SchedOp)
    (i : Nat) (lo : List Nat) (h : op.cancel = .noCancel) :
    runQueue (op :: ops) i lo =
      ((op.body []).1 :: (runQueue ops (i + 1) (op.body []).2).1,
        .cleared i :: .ran i [] :: .released i ::
          (runQueue ops (i + 1) (op.body []).2).2.1,
        (runQueue ops (i + 1) (op.body []).2).2.2) := by
  conv_lhs => rw [runQueue]
  rw [h]

theorem ranExpect_ge : ∀ (ops : List SchedOp) (k x : Nat),
    x ∈ ranExpect ops k → k ≤ x := by
  intro ops
  induction ops with
  | nil => intro k x h; simp [ranExpect] at h
  | cons op ops ih =>
    intro k x h
    unfold ranExpect at h
    by_cases hc : op.cancel = .noCancel
    · rw [if_pos hc] at h
      rcases List.mem_cons.mp h with h1 | h2
      · omega
      · have := ih (k + 1) x h2
        omega
    · rw [if_neg hc] at h
      have := ih (k + 1) x h
      omega

theorem runQueue_length : ∀ (ops : List SchedOp) (i : Nat) (lo : List Nat),
    (runQueue ops i lo).1.length = ops.length := by
  intro ops
  induction ops with
  | nil => intro i lo; rfl
  | cons op ops ih =>
    intro i lo
    cases hc : op.cancel with
    | beforeEntry => rw [runQueue_cons_beforeEntry op ops i lo hc]; simp [ih]
    | whileWaiting => rw [runQueue_cons_whileWaiting op ops i lo hc]; simp [ih]
    | noCancel => rw [runQueue_cons_noCancel op ops i lo hc]; simp [ih]

theorem runQueue_fifo : ∀ (ops : List SchedOp) (i : Nat) (lo : List Nat),
    (runQueue ops i lo).2.1.filterMap ranIdx = ranExpect ops i := by
  intro ops
  induction ops with
  | nil => intro i lo; rfl
  | cons op ops ih =>
    intro i lo
    cases hc : op.cancel with
    | beforeEntry =>
      rw [runQueue_cons_beforeEntry op ops i lo hc]
      unfold ranExpect
      rw [if_neg (by rw [hc]; exact fun h => CancelMode.noConfusion h)]
      exact ih (i + 1) lo
    | whileWaiting =>
      rw [runQueue_cons_whileWaiting op ops i lo hc]
      unfold ranExpect
      rw [if_neg (by rw [hc]; exact fun h => CancelMode.noConfusion h)]
      simp only [List.filterMap_cons]
      rw [show ranIdx (.released i) = none from rfl]
      exact ih (i + 1) lo
    | noCancel =>
      rw [runQueue_cons_noCancel op ops i lo hc]
      unfold ranExpect
      rw [if_pos hc]
      simp only [List.filterMap_cons]
      rw [show ranIdx (.cleared i) = none from rfl,
        show ranIdx (.ran i []) = some i from rfl,
        show ranIdx (.released i) = none from rfl]
      rw [ih (i + 1) (op.body []).2]

theorem runQueue_cancelled : ∀ (ops : List SchedOp) (i : Nat) (lo : List Nat)
    (j : Nat) (op : SchedOp), ops[j]? = some op → op.cancel ≠ .noCancel →
    (runQueue ops i lo).1[j]? = some (.error .abortErr) ∧
    ∀ l, SchedEv.ran (i + j) l ∉ (runQueue ops i lo).2.1 := by
  intro ops
  induction ops with
  | nil => intro i lo j op h; exact absurd h (by simp)
  | cons op0 ops ih =>
    intro i lo j op hget hcan
    have hnotran : ∀ (lo2 : List Nat) (l : List Nat) (k : Nat), k < i + 1 →
        SchedEv.ran k l ∉ (runQueue ops (i + 1) lo2).2.1 := by
      intro lo2 l k hk hmem
      have hidx : k ∈ (runQueue ops (i + 1) lo2).2.1.filterMap ranIdx :=
        List.mem_filterMap.mpr ⟨SchedEv.ran k l, hmem, rfl⟩
      rw [runQueue_fifo] at hidx
      have := ranExpect_ge ops (i + 1) k hidx
      omega
    cases j with
    | zero =>
      simp at hget
      rw [← hget] at hcan
      cases hc : op0.cancel with
      | beforeEntry =>
        rw [runQueue_cons_beforeEntry op0 ops i lo hc]
        refine ⟨by simp, fun l hmem => ?_⟩
        exact hnotran lo l (i + 0) (by omega) (by simpa using hmem)
      | whileWaiting =>
        rw [runQueue_cons_whileWaiting op0 ops i lo hc]
        refine ⟨by simp, fun l hmem => ?_⟩
        simp only [List.mem_cons] at hmem
        rcases hmem with h1 | h2
        · exact SchedEv.noConfusion h1
        · exact hnotran lo l (i + 0) (by omega) h2
      | noCancel => exact absurd hc hcan
    | succ j2 =>
      simp only [List.getElem?_cons_succ] at hget
      have hidx : i + 1 + j2 = i + (j2 + 1) := by omega
      cases hc : op0.cancel with
      | beforeEntry =>
        rw [runQueue_cons_beforeEntry op0 ops i lo hc]
        obtain ⟨h1, h2⟩ := ih (i + 1) lo j2 op hget hcan
        rw [hidx] at h2
        exact ⟨by simpa using h1, h2⟩
      | whileWaiting =>
        rw [runQueue_cons_whileWaiting op0 ops i lo hc]
        obtain ⟨h1, h2⟩ := ih (i + 1) lo j2 op hget hcan
        rw [hidx] at h2
        refine ⟨by simpa using h1, fun l hmem => ?_⟩
        simp only [List.mem_cons] at hmem
        rcases hmem with hx | hx
        · exact SchedEv.noConfusion hx
        · exact h2 l hx
      | noCancel =>
        rw [runQueue_cons_noCancel op0 ops i lo hc]
        obtain ⟨h1, h2⟩ := ih (i + 1) (op0.body []).2 j2 op hget hcan
        rw [hidx] at h2
        refine ⟨by simpa using h1, fun l hmem => ?_⟩
        simp only [List.mem_cons] at hmem
        rcases hmem with hx | hx | hx | hx
        · exact SchedEv.noConfusion hx
        · have := SchedEv.ran.inj hx
          omega
        · exact SchedEv.noConfusion hx
        · exact h2 l hx

theorem runQueue_executed : ∀ (ops : List SchedOp) (i : Nat) (lo : List Nat)
    (j : Nat) (op : SchedOp), ops[j]? = some op → op.cancel = .noCancel →
    (runQueue ops i lo).1[j]? = some (op.body []).1 ∧
    SchedEv.cleared (i + j) ∈ (runQueue ops i lo).2.1 ∧
    SchedEv.ran (i + j) [] ∈ (runQueue ops i lo).2.1 ∧
    SchedEv.released (i + j) ∈ (runQueue ops i lo).2.1 := by
  intro ops
  induction ops with
  | nil => intro i lo j op h; exact absurd h (by simp)
  | cons op0 ops ih =>
    intro i lo j op hget hcan
    cases j with
    | zero =>
      simp at hget
      subst hget
      rw [runQueue_cons_noCancel op0 ops i lo hcan]
      exact ⟨by simp, by simp, by simp, by simp⟩
    | succ j2 =>
      simp only [List.getElem?_cons_succ] at hget
      have hidx : i + 1 + j2 = i + (j2 + 1) := by omega
      cases hc : op0.cancel with
      | beforeEntry =>
        rw [runQueue_cons_beforeEntry op0 ops i lo hc]
        obtain ⟨h1, h2, h3, h4⟩ := ih (i + 1) lo j2 op hget hcan
        rw [hidx] at h2 h3 h4
        exact ⟨by simpa using h1, h2, h3, h4⟩
      | whileWaiting =>
        rw [runQueue_cons_whileWaiting op0 ops i lo hc]
        obtain ⟨h1, h2, h3, h4⟩ := ih (i + 1) lo j2 op hget hcan
        rw [hidx] at h2 h3 h4
        exact ⟨by simpa using h1, by simp [h2], by simp [h3], by simp [h4]⟩
      | noCancel =>
        rw [runQueue_cons_noCancel op0 ops i lo hc]
        obtain ⟨h1, h2, h3, h4⟩ := ih (i + 1) (op0.body []).2 j2 op hget hcan
        rw [hidx] at h2 h3 h4
        exact ⟨by simpa using h1, by simp [h2], by simp [h3], by simp [h4]⟩

/-- C7: the scheduler runs queued calls strictly one at a time in FIFO
arrival order (the `ran` events are exactly the non-cancelled indices, in
order); a call whose cancellation fires before its turn fails with the
abort error and its body never runs, without blocking later calls; every
call that does run has the leftover buffer cleared first (its body sees
an empty buffer) and releases the connection locks and hands the turn on
regardless of its body's outcome. -/
theorem runOperation_scheduler_spec (ops : List SchedOp) (i : Nat)
    (lo : List Nat) :
    (runQueue ops i lo).1.length = ops.length ∧
    ((runQueue ops i lo).2.1.filterMap ranIdx = ranExpect ops i) ∧
    (∀ j op, ops[j]? = some op → op.cancel ≠ .noCancel →
      (runQueue ops i lo).1[j]? = some (.error .abortErr) ∧
      ∀ l, SchedEv.ran (i + j) l ∉ (runQueue ops i lo).2.1) ∧
    (∀ j op, ops[j]? = some op → op.cancel = .noCancel →
      (runQueue ops i lo).1[j]? = some (op.body []).1 ∧
      SchedEv.cleared (i + j) ∈ (runQueue ops i lo).2.1 ∧
      SchedEv.ran (i + j) [] ∈ (runQueue ops i lo).2.1 ∧
      SchedEv.released (i + j) ∈ (runQueue ops i lo).2.1) :=
  ⟨runQueue_length ops i lo, runQueue_fifo ops i lo,
   fun j op hget hcan => runQueue_cancelled ops i lo j op hget hcan,
   fun j op hget hcan => runQueue_executed ops i lo j op hget hcan⟩

def demoBody : List Nat → Except SerialErr Unit × List Nat :=
  fun leftover => (.ok (), leftover)

def demoFailBody : List Nat → Except SerialErr Unit × List Nat :=
  fun _ => (.error .connErr, [7])

def demoOps : List SchedOp :=
  [⟨.whileWaiting, demoBody⟩, ⟨.noCancel, demoFailBody⟩, ⟨.noCancel, demoBody⟩]

/-- Witness for C7: a queue of three calls — one cancelled while waiting,
one whose body fails, one that succeeds; the cancelled call never runs
and fails, both others run in order with a cleared buffer and release
their locks, the failing body notwithstanding. -/
theorem runOperation_scheduler_spec_witness :
    (runQueue demoOps 0 [9]).1.length = demoOps.length ∧
    ((runQueue demoOps 0 [9]).2.1.filterMap ranIdx = ranExpect demoOps 0) ∧
    ((runQueue demoOps 0 [9]).1[0]? = some (.error .abortErr) ∧
      ∀ l, SchedEv.ran (0 + 0) l ∉ (runQueue demoOps 0 [9]).2.1) ∧
    ((runQueue demoOps 0 [9]).1[1]? =
        some ((SchedOp.mk .noCancel demoFailBody).body []).1 ∧
      SchedEv.cleared (0 + 1) ∈ (runQueue demoOps 0 [9]).2.1 ∧
      SchedEv.ran (0 + 1) [] ∈ (runQueue demoOps 0 [9]).2.1 ∧
      SchedEv.released (0 + 1) ∈ (runQueue demoOps 0 [9]).2.1) ∧
    ((runQueue demoOps 0 [9]).1[2]? =
        some ((SchedOp.mk .noCancel demoBody).body []).1 ∧
      SchedEv.ran (0 + 2) [] ∈ (runQueue demoOps 0 [9]).2.1) :=
  ⟨(runOperation_scheduler_spec demoOps 0 [9]).1,
   (runOperation_scheduler_spec demoOps 0 [9]).2.1,
   (runOperation_scheduler_spec demoOps 0 [9]).2.2.1 0 ⟨.whileWaiting, demoBody⟩
     rfl (by decide),
   (runOperation_scheduler_spec demoOps 0 [9]).2.2.2 1
     ⟨.noCancel, demoFailBody⟩ rfl rfl,
   ⟨((runOperation_scheduler_spec demoOps 0 [9]).2.2.2 2
       ⟨.noCancel, demoBody⟩ rfl rfl).1,
    ((runOperation_scheduler_spec demoOps 0 [9]).2.2.2 2
       ⟨.noCancel, demoBody⟩ rfl rfl).2.2.1⟩⟩

/-! ## Flash orchestrator (`FlasherService.flash`) -/

inductive FlashState where
  | idle
  | enteringBootloader
  | initializing
  | unprotecting
  | erasing
  | writing
  | verifying
  | resetting
  | complete
  | error
deriving DecidableEq, Repr

/-- One `onProgress` callback record `{state, progress, message}`. -/
structure FlashEvent where
  state : FlashState
  progress : Nat
  message : String
deriving DecidableEq, Repr

/-- Outcome of the flash body: user cancellation (`AbortError`) or a
genuine failure with its message. -/
inductive FlashErr where
  | aborted
  | failed (msg : String)
deriving DecidableEq, Repr

/-- Environment of one flash run: the product id the device reports, the
device flash contents read back during verify, the write-loop iteration
at which the cancellation signal fires (if any), and whether the MCU
reset step fails. -/
structure FlashEnv where
  productId : Nat
  dev : List Nat
  abortAtWriteChunk : Option Nat
  resetFails : Bool

/-- JavaScript `Math.round(num / den)` (round half up) for the exact
dyadic ratios produced by the progress computations. -/
def jsRound (num den : Nat) : Nat := (2 * num + den) / (2 * den)

/-- The 256-byte chunking used by both the write and the verify loop
(`Math.min(256, total - done)` per iteration). -/
def chunks256 (l : List Nat) : List (List Nat) :=
  if h : l = [] then [] else l.take 256 :: chunks256 (l.drop 256)
termination_by l.length
decreasing_by
  rw [List.length_drop]
  have := List.length_pos.mpr h
  omega

/-- The write phase: per 256-byte chunk, check the cancellation signal,
call `writeMemory`, then report progress `round(bytes/total*50)`.
Returns (events, writeMemory calls, outcome). -/
def writeLoop (abortAt : Option Nat) (total : Nat) :
    List (List Nat) → Nat → Nat → Nat →
      List FlashEvent × List (Nat × List Nat) × Except FlashErr Unit
  | [], _, _, _ => ([], [], .ok ())
  | c :: cs, idx, bw, addr =>
    if abortAt = some idx then ([], [], .error .aborted)
    else
      let bw2 := bw + c.length
      let r := writeLoop abortAt total cs (idx + 1) bw2 (addr + c.length)
      (⟨.writing, jsRound (bw2 * 50) total,
          "Writing flash... " ++ toString (jsRound (bw2 * 100) total) ++ "%"⟩ :: r.1,
        (addr, c) :: r.2.1, r.2.2)

/-- The verify phase: per 256-byte chunk, `readMemory`, byte-for-byte
comparison against the source image, then progress
`50 + round(bytes/total*50)`; the first mismatch raises an
address-tagged error.  Returns (events, readMemory calls, outcome). -/
def verifyLoop (dev : List Nat) (total : Nat) :
    List (List Nat) → Nat → Nat →
      List FlashEvent × List (Nat × Nat) × Except FlashErr Unit
  | [], _, _ => ([], [], .ok ())
  | c :: cs, bv, addr =>
    let readData := (dev.drop bv).take c.length
    if readData ≠ c then
      ([], [(addr, c.length)],
        .error (.failed ("Verification failed at address 0x" ++ hexStr addr)))
    else
      let bv2 := bv + c.length
      let r := verifyLoop dev total cs bv2 (addr + c.length)
      (⟨.verifying, 50 + jsRound (bv2 * 50) total,
          "Verifying flash... " ++ toString (jsRound (bv2 * 100) total) ++ "%"⟩ :: r.1,
        (addr, c.length) :: r.2.1, r.2.2)

def FLASH_BASE : Nat := 0x8000000

/-- The body of `FlasherService.flash` up to (and excluding) the final
reset: bootloader-mode entry and init events, product-id check, the
unprotect/erase events, then the write and verify loops.  Returns
(events, writeMemory calls, readMemory calls, outcome). -/
def flashBody (env : FlashEnv) (fw : List Nat) :
    List FlashEvent × List (Nat × List Nat) × List (Nat × Nat) ×
      Except FlashErr Unit :=
  let total := fw.length
  let evs0 : List FlashEvent :=
    [⟨.enteringBootloader, 0, "Entering bootloader mode..."⟩,
     ⟨.initializing, 0, "Initializing bootloader..."⟩]
  if env.productId ≠ PRODUCT_ID then
    (evs0, [], [],
      .error (.failed ("Incorrect product ID: 0x" ++ hexStr env.productId ++
        " (expected 0x" ++ hexStr PRODUCT_ID ++ ")")))
  else
    let evs1 := evs0 ++ [⟨.unprotecting, 0, "Write unprotecting..."⟩,
      ⟨.erasing, 0, "Erasing flash..."⟩, ⟨.writing, 0, "Writing firmware..."⟩]
    let w := writeLoop env.abortAtWriteChunk total (chunks256 fw) 0 0 FLASH_BASE
    match w.2.2 with
    | .error e => (evs1 ++ w.1, w.2.1, [], .error e)
    | .ok _ =>
      let evs2 := evs1 ++ w.1 ++ [⟨.verifying, 50, "Verifying flash..."⟩]
      let v := verifyLoop env.dev total (chunks256 fw) 0 FLASH_BASE
      match v.2.2 with
      | .error e => (evs2 ++ v.1, w.2.1, v.2.1, .error e)
      | .ok _ => (evs2 ++ v.1, w.2.1, v.2.1, .ok ())

/-- Full result of one modelled `flash` call. -/
structure FlashResult where
  events : List FlashEvent
  writes : List (Nat × List Nat)
  reads : List (Nat × Nat)
  catchReset : Bool
  outcome : Except FlashErr Unit
deriving Repr

/-- `FlasherService.flash`: the body wrapped in the try/catch of the
source — on success the resetting and complete events; on `AbortError`
only the `idle`/cancelled event, no reset attempt and a normal return;
on a genuine failure the `error` event, a best-effort catch reset
(`catchReset`, its own failure swallowed) and a re-throw. -/
def flashModel (env : FlashEnv) (fw : List Nat) : FlashResult :=
  let b := flashBody env fw
  match b.2.2.2 with
  | .ok _ =>
    let evs := b.1 ++ [⟨.resetting, 100, "Resetting device..."⟩]
    if env.resetFails then
      ⟨evs ++ [⟨.error, 0, "Flash failed: Reset failed"⟩], b.2.1, b.2.2.1,
        true, .error (.failed "Reset failed")⟩
    else
      ⟨evs ++ [⟨.complete, 100, "Flash complete."⟩], b.2.1, b.2.2.1,
        false, .ok ()⟩
  | .error .aborted =>
    ⟨b.1 ++ [⟨.idle, 0, "Flash cancelled."⟩], b.2.1, b.2.2.1, false, .ok ()⟩
  | .error (.failed m) =>
    ⟨b.1 ++ [⟨.error, 0, "Flash failed: " ++ m⟩], b.2.1, b.2.2.1,
      true, .error (.failed m)⟩

theorem flashModel_of_failed (env : FlashEnv) (fw : List Nat) (m : String)
    (h : (flashBody env fw).2.2.2 = .error (.failed m)) :
    flashModel env fw =
      ⟨(flashBody env fw).1 ++ [⟨.error, 0, "Flash failed: " ++ m⟩],
        (flashBody env fw).2.1, (flashBody env fw).2.2.1, true,
        .error (.failed m)⟩ := by
  unfold flashModel
  simp only [h]

theorem flashModel_of_aborted (env : FlashEnv) (fw : List Nat)
    (h : (flashBody env fw).2.2.2 = .error .aborted) :
    flashModel env fw =
      ⟨(flashBody env fw).1 ++ [⟨.idle, 0, "Flash cancelled."⟩],
        (flashBody env fw).2.1, (flashBody env fw).2.2.1, false, .ok ()⟩ := by
  unfold flashModel
  simp only [h]

theorem flashModel_of_ok (env : FlashEnv) (fw : List Nat)
    (h : (flashBody env fw).2.2.2 = .ok ()) (hr : env.resetFails = false) :
    flashModel env fw =
      ⟨(flashBody env fw).1 ++ [⟨.resetting, 100, "Resetting device..."⟩] ++
          [⟨.complete, 100, "Flash complete."⟩],
        (flashBody env fw).2.1, (flashBody env fw).2.2.1, false, .ok ()⟩ := by
  unfold flashModel
  simp only [h, hr]
  simp

/-- C8 (amended): on every non-cancellation failure of the flash sequence
the orchestrator reports the `error` state carrying the captured message,
makes a best-effort MCU reset attempt in the catch handler (whose own
failure is swallowed), and propagates the original error to the caller;
on user cancellation it reports the distinct cancelled outcome (an `idle`
event with a fixed message), does not attempt a reset, and returns
normally without propagating the cancellation. -/
theorem flash_failure_handling (env : FlashEnv) (fw : List Nat) :
    (∀ m, (flashBody env fw).2.2.2 = .error (.failed m) →
      (flashModel env fw).outcome = .error (.failed m) ∧
      FlashEvent.mk .error 0 ("Flash failed: " ++ m) ∈
        (flashModel env fw).events ∧
      (flashModel env fw).catchReset = true) ∧
    ((flashBody env fw).2.2.2 = .error .aborted →
      (flashModel env fw).outcome = .ok () ∧
      FlashEvent.mk .idle 0 "Flash cancelled." ∈ (flashModel env fw).events ∧
      (flashModel env fw).catchReset = false) := by
  constructor
  · intro m hm
    rw [flashModel_of_failed env fw m hm]
    exact ⟨rfl, by simp, rfl⟩
  · intro hm
    rw [flashModel_of_aborted env fw hm]
    exact ⟨rfl, by simp, rfl⟩

def c8wEnv : FlashEnv := ⟨0, [], none, false⟩

/-- Witness for C8 at a concrete failing run (wrong product id): the
error event is reported, the catch reset is attempted, and the error
propagates. -/
theorem flash_failure_handling_witness :
    ((flashBody c8wEnv []).2.2.2 =
      .error (.failed ("Incorrect product ID: 0x" ++ hexStr 0 ++
        " (expected 0x" ++ hexStr PRODUCT_ID ++ ")"))) ∧
    ((flashModel c8wEnv []).outcome =
      .error (.failed ("Incorrect product ID: 0x" ++ hexStr 0 ++
        " (expected 0x" ++ hexStr PRODUCT_ID ++ ")")) ∧
      FlashEvent.mk .error 0 ("Flash failed: " ++ ("Incorrect product ID: 0x" ++
        hexStr 0 ++ " (expected 0x" ++ hexStr PRODUCT_ID ++ ")")) ∈
        (flashModel c8wEnv []).events ∧
      (flashModel c8wEnv []).catchReset = true) :=
  ⟨rfl, (flash_failure_handling c8wEnv []).1 _ rfl⟩

def c8Env : FlashEnv := ⟨PRODUCT_ID, [], some 0, false⟩

set_option maxRecDepth 8192 in
/-- C8 counterexample to the claim as stated: in a run cancelled during
the write phase the orchestrator reports the cancelled outcome, but it
does NOT attempt the MCU reset sequence and does NOT propagate the
cancellation — `flash` returns normally. -/
theorem flash_cancel_not_propagated :
    (flashModel c8Env ([1, 2, 3, 4])).outcome = .ok () ∧
    (flashModel c8Env ([1, 2, 3, 4])).catchReset = false ∧
    FlashEvent.mk .idle 0 "Flash cancelled." ∈
      (flashModel c8Env ([1, 2, 3, 4])).events := by
  have h : (flashBody c8Env ([1, 2, 3, 4])).2.2.2 = .error .aborted := by
    simp [flashBody, chunks256, writeLoop, c8Env, PRODUCT_ID]
  rw [flashModel_of_aborted _ _ h]
  exact ⟨rfl, rfl, by simp⟩

theorem chunks256_nil : chunks256 [] = [] := by
  simp [chunks256]

theorem chunks256_cons (l : List Nat) (h : l ≠ []) :
    chunks256 l = l.take 256 :: chunks256 (l.drop 256) := by
  rw [chunks256]
  simp [h]

theorem chunks256_1024 (l : List Nat) (h : l.length = 1024) :
    chunks256 l = [l.take 256, (l.drop 256).take 256, (l.drop 512).take 256,
      (l.drop 768).take 256] := by
  have len1 : (l.drop 256).length = 768 := by rw [List.length_drop, h]
  have len2 : (l.drop 512).length = 512 := by rw [List.length_drop, h]
  have len3 : (l.drop 768).length = 256 := by rw [List.length_drop, h]
  have ne0 : l ≠ [] := by intro e; rw [e] at h; simp at h
  have ne1 : l.drop 256 ≠ [] := by intro e; rw [e] at len1; simp at len1
  have ne2 : l.drop 512 ≠ [] := by intro e; rw [e] at len2; simp at len2
  have ne3 : l.drop 768 ≠ [] := by intro e; rw [e] at len3; simp at len3
  have d1 : (l.drop 256).drop 256 = l.drop 512 := by simp [List.drop_drop]
  have d2 : (l.drop 512).drop 256 = l.drop 768 := by simp [List.drop_drop]
  have d3 : (l.drop 768).drop 256 = [] := List.drop_eq_nil_of_le (by omega)
  rw [chunks256_cons l ne0, chunks256_cons _ ne1, d1, chunks256_cons _ ne2, d2,
    chunks256_cons _ ne3, d3, chunks256_nil]

theorem split4_1024 (l : List Nat) (h : l.length = 1024) :
    l = l.take 256 ++ ((l.drop 256).take 256 ++ ((l.drop 512).take 256 ++
      (l.drop 768).take 256)) := by
  have len3 : (l.drop 768).length = 256 := by rw [List.length_drop, h]
  have hD : (l.drop 768).take 256 = l.drop 768 :=
    List.take_of_length_le (by omega)
  rw [hD]
  have e1 : (l.drop 512).take 256 ++ l.drop 768 = l.drop 512 := by
    have hd : (l.drop 512).drop 256 = l.drop 768 := by simp [List.drop_drop]
    rw [← hd, List.take_append_drop]
  rw [e1]
  have e2 : (l.drop 256).take 256 ++ l.drop 512 = l.drop 256 := by
    have hd : (l.drop 256).drop 256 = l.drop 512 := by simp [List.drop_drop]
    rw [← hd, List.take_append_drop]
  rw [e2, List.take_append_drop]

set_option maxRecDepth 8192 in
/-- C9: for a 1024-byte firmware image (device contents `dev` read back
during verify), `flash` issues exactly 4 `writeMemory` calls of 256 bytes
each at consecutive 256-byte addresses; when the device contents match
the image it issues exactly 4 `readMemory` calls, the reported event
stream is exactly the expected one — progress monotone from 0 to exactly
50 within the write phase and from 50 to exactly 100 within the verify
phase, ending in `complete` — and the call succeeds; a mismatch in any
256-byte chunk instead produces an address-tagged verification failure
and the `complete` state is never reported. -/
theorem flash_1024_scenario (fw dev : List Nat) (hfw : fw.length = 1024)
    (hdev : dev.length = 1024) :
    ((flashModel ⟨PRODUCT_ID, dev, none, false⟩ fw).writes =
      [(FLASH_BASE, fw.take 256), (FLASH_BASE + 256, (fw.drop 256).take 256),
       (FLASH_BASE + 512, (fw.drop 512).take 256),
       (FLASH_BASE + 768, (fw.drop 768).take 256)] ∧
      ∀ w ∈ (flashModel ⟨PRODUCT_ID, dev, none, false⟩ fw).writes,
        w.2.length = 256) ∧
    (dev = fw →
      (flashModel ⟨PRODUCT_ID, dev, none, false⟩ fw).reads =
        [(FLASH_BASE, 256), (FLASH_BASE + 256, 256), (FLASH_BASE + 512, 256),
         (FLASH_BASE + 768, 256)] ∧
      (flashModel ⟨PRODUCT_ID, dev, none, false⟩ fw).events =
        [⟨.enteringBootloader, 0, "Entering bootloader mode..."⟩,
         ⟨.initializing, 0, "Initializing bootloader..."⟩,
         ⟨.unprotecting, 0, "Write unprotecting..."⟩,
         ⟨.erasing, 0, "Erasing flash..."⟩,
         ⟨.writing, 0, "Writing firmware..."⟩,
         ⟨.writing, 13, "Writing flash... 25%"⟩,
         ⟨.writing, 25, "Writing flash... 50%"⟩,
         ⟨.writing, 38, "Writing flash... 75%"⟩,
         ⟨.writing, 50, "Writing flash... 100%"⟩,
         ⟨.verifying, 50, "Verifying flash..."⟩,
         ⟨.verifying, 63, "Verifying flash... 25%"⟩,
         ⟨.verifying, 75, "Verifying flash... 50%"⟩,
         ⟨.verifying, 88, "Verifying flash... 75%"⟩,
         ⟨.verifying, 100, "Verifying flash... 100%"⟩,
         ⟨.resetting, 100, "Resetting device..."⟩,
         ⟨.complete, 100, "Flash complete."⟩] ∧
      (flashModel ⟨PRODUCT_ID, dev, none, false⟩ fw).outcome = .ok ()) ∧
    (dev ≠ fw →
      (∃ k, k < 4 ∧ (flashModel ⟨PRODUCT_ID, dev, none, false⟩ fw).outcome =
        .error (.failed ("Verification failed at address 0x" ++
          hexStr (FLASH_BASE + 256 * k)))) ∧
      ∀ e ∈ (flashModel ⟨PRODUCT_ID, dev, none, false⟩ fw).events,
        e.state ≠ .complete) := by
  have hch := chunks256_1024 fw hfw
  have hA : (fw.take 256).length = 256 := by simp [List.length_take, hfw]
  have hB : ((fw.drop 256).take 256).length = 256 := by
    simp [List.length_take, List.length_drop, hfw]
  have hC : ((fw.drop 512).take 256).length = 256 := by
    simp [List.length_take, List.length_drop, hfw]
  have hD : ((fw.drop 768).take 256).length = 256 := by
    simp [List.length_take, List.length_drop, hfw]
  have hwl : writeLoop none 1024 (chunks256 fw) 0 0 FLASH_BASE =
      ([⟨.writing, 13, "Writing flash... 25%"⟩,
        ⟨.writing, 25, "Writing flash... 50%"⟩,
        ⟨.writing, 38, "Writing flash... 75%"⟩,
        ⟨.writing, 50, "Writing flash... 100%"⟩],
       [(FLASH_BASE, fw.take 256), (FLASH_BASE + 256, (fw.drop 256).take 256),
        (FLASH_BASE + 512, (fw.drop 512).take 256),
        (FLASH_BASE + 768, (fw.drop 768).take 256)],
       .ok ()) := by
    rw [hch]
    simp [writeLoop, hA, hB, hC, hD, jsRound, FLASH_BASE]
    decide
  by_cases hde : dev = fw
  · subst hde
    have hvl : verifyLoop dev 1024 (chunks256 dev) 0 FLASH_BASE =
        ([⟨.verifying, 63, "Verifying flash... 25%"⟩,
          ⟨.verifying, 75, "Verifying flash... 50%"⟩,
          ⟨.verifying, 88, "Verifying flash... 75%"⟩,
          ⟨.verifying, 100, "Verifying flash... 100%"⟩],
         [(FLASH_BASE, 256), (FLASH_BASE + 256, 256), (FLASH_BASE + 512, 256),
          (FLASH_BASE + 768, 256)],
         .ok ()) := by
      rw [hch]
      simp [verifyLoop, hA, hB, hC, hD, jsRound, FLASH_BASE]
      decide
    have hbody : flashBody ⟨PRODUCT_ID, dev, none, false⟩ dev =
        ([⟨.enteringBootloader, 0, "Entering bootloader mode..."⟩,
          ⟨.initializing, 0, "Initializing bootloader..."⟩,
          ⟨.unprotecting, 0, "Write unprotecting..."⟩,
          ⟨.erasing, 0, "Erasing flash..."⟩,
          ⟨.writing, 0, "Writing firmware..."⟩,
          ⟨.writing, 13, "Writing flash... 25%"⟩,
          ⟨.writing, 25, "Writing flash... 50%"⟩,
          ⟨.writing, 38, "Writing flash... 75%"⟩,
          ⟨.writing, 50, "Writing flash... 100%"⟩,
          ⟨.verifying, 50, "Verifying flash..."⟩,
          ⟨.verifying, 63, "Verifying flash... 25%"⟩,
          ⟨.verifying, 75, "Verifying flash... 50%"⟩,
          ⟨.verifying, 88, "Verifying flash... 75%"⟩,
          ⟨.verifying, 100, "Verifying flash... 100%"⟩],
         [(FLASH_BASE, dev.take 256), (FLASH_BASE + 256, (dev.drop 256).take 256),
          (FLASH_BASE + 512, (dev.drop 512).take 256),
          (FLASH_BASE + 768, (dev.drop 768).take 256)],
         [(FLASH_BASE, 256), (FLASH_BASE + 256, 256), (FLASH_BASE + 512, 256),
          (FLASH_BASE + 768, 256)],
         .ok ()) := by
      unfold flashBody
      rw [if_neg (by simp)]
      rw [hfw]
      simp only [hwl, hvl]
      simp
    have hmodel := flashModel_of_ok ⟨PRODUCT_ID, dev, none, false⟩ dev
      (by rw [hbody]) rfl
    rw [hmodel, hbody]
    refine ⟨⟨rfl, ?_⟩, fun _ => ⟨rfl, by simp, rfl⟩, fun hne => absurd rfl hne⟩
    intro w hw
    simp at hw
    rcases hw with h | h | h | h <;> rw [h]
    · exact hA
    · exact hB
    · exact hC
    · exact hD
  · have hwlen : ∀ w ∈ [(FLASH_BASE, fw.take 256),
        (FLASH_BASE + 256, (fw.drop 256).take 256),
        (FLASH_BASE + 512, (fw.drop 512).take 256),
        (FLASH_BASE + 768, (fw.drop 768).take 256)],
        (w : Nat × List Nat).2.length = 256 := by
      intro w hw
      simp at hw
      rcases hw with h | h | h | h <;> rw [h]
      · exact hA
      · exact hB
      · exact hC
      · exact hD
    by_cases e0 : dev.take 256 = fw.take 256
    · by_cases e1 : (dev.drop 256).take 256 = (fw.drop 256).take 256
      · by_cases e2 : (dev.drop 512).take 256 = (fw.drop 512).take 256
        · by_cases e3 : (dev.drop 768).take 256 = (fw.drop 768).take 256
          · exfalso
            apply hde
            conv_lhs => rw [split4_1024 dev hdev]
            rw [e0, e1, e2, e3]
            exact (split4_1024 fw hfw).symm
          · -- mismatch in the fourth chunk
            have hvl3 : verifyLoop dev 1024 (chunks256 fw) 0 FLASH_BASE =
                ([⟨.verifying, 63, "Verifying flash... 25%"⟩,
                  ⟨.verifying, 75, "Verifying flash... 50%"⟩,
                  ⟨.verifying, 88, "Verifying flash... 75%"⟩],
                 [(FLASH_BASE, 256), (FLASH_BASE + 256, 256),
                  (FLASH_BASE + 512, 256), (FLASH_BASE + 768, 256)],
                 .error (.failed ("Verification failed at address 0x" ++
                   hexStr (FLASH_BASE + 768)))) := by
              rw [hch]
              simp [verifyLoop, hA, hB, hC, hD, e0, e1, e2, e3, jsRound]
              decide
            have hbody3 : (flashBody ⟨PRODUCT_ID, dev, none, false⟩ fw).2.2.2 =
                .error (.failed ("Verification failed at address 0x" ++
                  hexStr (FLASH_BASE + 768))) := by
              unfold flashBody
              rw [if_neg (by simp)]
              rw [hfw]
              simp only [hwl, hvl3]
            have hbodyev : (flashBody ⟨PRODUCT_ID, dev, none, false⟩ fw).1 =
                [⟨.enteringBootloader, 0, "Entering bootloader mode..."⟩,
                 ⟨.initializing, 0, "Initializing bootloader..."⟩,
                 ⟨.unprotecting, 0, "Write unprotecting..."⟩,
                 ⟨.erasing, 0, "Erasing flash..."⟩,
                 ⟨.writing, 0, "Writing firmware..."⟩,
                 ⟨.writing, 13, "Writing flash... 25%"⟩,
                 ⟨.writing, 25, "Writing flash... 50%"⟩,
                 ⟨.writing, 38, "Writing flash... 75%"⟩,
                 ⟨.writing, 50, "Writing flash... 100%"⟩,
                 ⟨.verifying, 50, "Verifying flash..."⟩,
                 ⟨.verifying, 63, "Verifying flash... 25%"⟩,
                 ⟨.verifying, 75, "Verifying flash... 50%"⟩,
                 ⟨.verifying, 88, "Verifying flash... 75%"⟩] := by
              unfold flashBody
              rw [if_neg (by simp)]
              rw [hfw]
              simp only [hwl, hvl3]
              simp
            have hbodywr : (flashBody ⟨PRODUCT_ID, dev, none, false⟩ fw).2.1 =
                [(FLASH_BASE, fw.take 256),
                 (FLASH_BASE + 256, (fw.drop 256).take 256),
                 (FLASH_BASE + 512, (fw.drop 512).take 256),
                 (FLASH_BASE + 768, (fw.drop 768).take 256)] := by
              unfold flashBody
              rw [if_neg (by simp)]
              rw [hfw]
              simp only [hwl, hvl3]
            have hmodel := flashModel_of_failed ⟨PRODUCT_ID, dev, none, false⟩
              fw _ hbody3
            rw [hmodel]
            refine ⟨⟨by rw [hbodywr], ?_⟩, fun he => absurd he hde,
              fun _ => ⟨⟨3, by omega, by norm_num⟩, ?_⟩⟩
            · rw [hbodywr]
              exact hwlen
            · show ∀ e ∈ (flashBody ⟨PRODUCT_ID, dev, none, false⟩ fw).1 ++
                  [⟨.error, 0, "Flash failed: " ++ ("Verification failed at address 0x" ++ hexStr (FLASH_BASE + 768))⟩],
                e.state ≠ FlashState.complete
              rw [hbodyev]
              decide
        · -- mismatch in the third chunk
          have hvl2 : verifyLoop dev 1024 (chunks256 fw) 0 FLASH_BASE =
              ([⟨.verifying, 63, "Verifying flash... 25%"⟩,
                ⟨.verifying, 75, "Verifying flash... 50%"⟩],
               [(FLASH_BASE, 256), (FLASH_BASE + 256, 256),
                (FLASH_BASE + 512, 256)],
               .error (.failed ("Verification failed at address 0x" ++
                 hexStr (FLASH_BASE + 512)))) := by
            rw [hch]
            simp [verifyLoop, hA, hB, hC, e0, e1, e2, jsRound]
            decide
          have hbody2 : (flashBody ⟨PRODUCT_ID, dev, none, false⟩ fw).2.2.2 =
              .error (.failed ("Verification failed at address 0x" ++
                hexStr (FLASH_BASE + 512))) := by
            unfold flashBody
            rw [if_neg (by simp)]
            rw [hfw]
            simp only [hwl, hvl2]
          have hbodyev : (flashBody ⟨PRODUCT_ID, dev, none, false⟩ fw).1 =
              [⟨.enteringBootloader, 0, "Entering bootloader mode..."⟩,
               ⟨.initializing, 0, "Initializing bootloader..."⟩,
               ⟨.unprotecting, 0, "Write unprotecting..."⟩,
               ⟨.erasing, 0, "Erasing flash..."⟩,
               ⟨.writing, 0, "Writing firmware..."⟩,
               ⟨.writing, 13, "Writing flash... 25%"⟩,
               ⟨.writing, 25, "Writing flash... 50%"⟩,
               ⟨.writing, 38, "Writing flash... 75%"⟩,
               ⟨.writing, 50, "Writing flash... 100%"⟩,
               ⟨.verifying, 50, "Verifying flash..."⟩,
               ⟨.verifying, 63, "Verifying flash... 25%"⟩,
               ⟨.verifying, 75, "Verifying flash... 50%"⟩] := by
            unfold flashBody
            rw [if_neg (by simp)]
            rw [hfw]
            simp only [hwl, hvl2]
            simp
          have hbodywr : (flashBody ⟨PRODUCT_ID, dev, none, false⟩ fw).2.1 =
              [(FLASH_BASE, fw.take 256),
               (FLASH_BASE + 256, (fw.drop 256).take 256),
               (FLASH_BASE + 512, (fw.drop 512).take 256),
               (FLASH_BASE + 768, (fw.drop 768).take 256)] := by
            unfold flashBody
            rw [if_neg (by simp)]
            rw [hfw]
            simp only [hwl, hvl2]
          have hmodel := flashModel_of_failed ⟨PRODUCT_ID, dev, none, false⟩
            fw _ hbody2
          rw [hmodel]
          refine ⟨⟨by rw [hbodywr], ?_⟩, fun he => absurd he hde,
            fun _ => ⟨⟨2, by omega, by norm_num⟩, ?_⟩⟩
          · rw [hbodywr]
            exact hwlen
          · show ∀ e ∈ (flashBody ⟨PRODUCT_ID, dev, none, false⟩ fw).1 ++
                [⟨.error, 0, "Flash failed: " ++ ("Verification failed at address 0x" ++ hexStr (FLASH_BASE + 512))⟩],
              e.state ≠ FlashState.complete
            rw [hbodyev]
            decide
      · -- mismatch in the second chunk
        have hvl1 : verifyLoop dev 1024 (chunks256 fw) 0 FLASH_BASE =
            ([⟨.verifying, 63, "Verifying flash... 25%"⟩],
             [(FLASH_BASE, 256), (FLASH_BASE + 256, 256)],
             .error (.failed ("Verification failed at address 0x" ++
               hexStr (FLASH_BASE + 256)))) := by
          rw [hch]
          simp [verifyLoop, hA, hB, e0, e1, jsRound]
          decide
        have hbody1 : (flashBody ⟨PRODUCT_ID, dev, none, false⟩ fw).2.2.2 =
            .error (.failed ("Verification failed at address 0x" ++
              hexStr (FLASH_BASE + 256))) := by
          unfold flashBody
          rw [if_neg (by simp)]
          rw [hfw]
          simp only [hwl, hvl1]
        have hbodyev : (flashBody ⟨PRODUCT_ID, dev, none, false⟩ fw).1 =
            [⟨.enteringBootloader, 0, "Entering bootloader mode..."⟩,
             ⟨.initializing, 0, "Initializing bootloader..."⟩,
             ⟨.unprotecting, 0, "Write unprotecting..."⟩,
             ⟨.erasing, 0, "Erasing flash..."⟩,
             ⟨.writing, 0, "Writing firmware..."⟩,
             ⟨.writing, 13, "Writing flash... 25%"⟩,
             ⟨.writing, 25, "Writing flash... 50%"⟩,
             ⟨.writing, 38, "Writing flash... 75%"⟩,
             ⟨.writing, 50, "Writing flash... 100%"⟩,
             ⟨.verifying, 50, "Verifying flash..."⟩,
             ⟨.verifying, 63, "Verifying flash... 25%"⟩] := by
          unfold flashBody
          rw [if_neg (by simp)]
          rw [hfw]
          simp only [hwl, hvl1]
          simp
        have hbodywr : (flashBody ⟨PRODUCT_ID, dev, none, false⟩ fw).2.1 =
            [(FLASH_BASE, fw.take 256),
             (FLASH_BASE + 256, (fw.drop 256).take 256),
             (FLASH_BASE + 512, (fw.drop 512).take 256),
             (FLASH_BASE + 768, (fw.drop 768).take 256)] := by
          unfold flashBody
          rw [if_neg (by simp)]
          rw [hfw]
          simp only [hwl, hvl1]
        have hmodel := flashModel_of_failed ⟨PRODUCT_ID, dev, none, false⟩
          fw _ hbody1
        rw [hmodel]
        refine ⟨⟨by rw [hbodywr], ?_⟩, fun he => absurd he hde,
          fun _ => ⟨⟨1, by omega, by norm_num⟩, ?_⟩⟩
        · rw [hbodywr]
          exact hwlen
        · show ∀ e ∈ (flashBody ⟨PRODUCT_ID, dev, none, false⟩ fw).1 ++
              [⟨.error, 0, "Flash failed: " ++ ("Verification failed at address 0x" ++ hexStr (FLASH_BASE + 256))⟩],
            e.state ≠ FlashState.complete
          rw [hbodyev]
          decide
    · -- mismatch in the first chunk
      have hvl0 : verifyLoop dev 1024 (chunks256 fw) 0 FLASH_BASE =
          ([], [(FLASH_BASE, 256)],
           .error (.failed ("Verification failed at address 0x" ++
             hexStr FLASH_BASE))) := by
        rw [hch]
        simp [verifyLoop, hA, e0]
      have hbody0 : (flashBody ⟨PRODUCT_ID, dev, none, false⟩ fw).2.2.2 =
          .error (.failed ("Verification failed at address 0x" ++
            hexStr FLASH_BASE)) := by
        unfold flashBody
        rw [if_neg (by simp)]
        rw [hfw]
        simp only [hwl, hvl0]
      have hbodyev : (flashBody ⟨PRODUCT_ID, dev, none, false⟩ fw).1 =
          [⟨.enteringBootloader, 0, "Entering bootloader mode..."⟩,
           ⟨.initializing, 0, "Initializing bootloader..."⟩,
           ⟨.unprotecting, 0, "Write unprotecting..."⟩,
           ⟨.erasing, 0, "Erasing flash..."⟩,
           ⟨.writing, 0, "Writing firmware..."⟩,
           ⟨.writing, 13, "Writing flash... 25%"⟩,
           ⟨.writing, 25, "Writing flash... 50%"⟩,
           ⟨.writing, 38, "Writing flash... 75%"⟩,
           ⟨.writing, 50, "Writing flash... 100%"⟩,
           ⟨.verifying, 50, "Verifying flash..."⟩] := by
        unfold flashBody
        rw [if_neg (by simp)]
        rw [hfw]
        simp only [hwl, hvl0]
        simp
      have hbodywr : (flashBody ⟨PRODUCT_ID, dev, none, false⟩ fw).2.1 =
          [(FLASH_BASE, fw.take 256),
           (FLASH_BASE + 256, (fw.drop 256).take 256),
           (FLASH_BASE + 512, (fw.drop 512).take 256),
           (FLASH_BASE + 768, (fw.drop 768).take 256)] := by
        unfold flashBody
        rw [if_neg (by simp)]
        rw [hfw]
        simp only [hwl, hvl0]
      have hmodel := flashModel_of_failed ⟨PRODUCT_ID, dev, none, false⟩
        fw _ hbody0
      rw [hmodel]
      refine ⟨⟨by rw [hbodywr], ?_⟩, fun he => absurd he hde,
        fun _ => ⟨⟨0, by omega, by norm_num⟩, ?_⟩⟩
      · rw [hbodywr]
        exact hwlen
      · show ∀ e ∈ (flashBody ⟨PRODUCT_ID, dev, none, false⟩ fw).1 ++
            [⟨.error, 0, "Flash failed: " ++ ("Verification failed at address 0x" ++ hexStr FLASH_BASE)⟩],
          e.state ≠ FlashState.complete
        rw [hbodyev]
        decide

/-- Witness for C9 at a concrete all-zero 1024-byte image with matching
device contents: the run succeeds and reports `complete`. -/
theorem flash_1024_scenario_witness :
    ((List.replicate 1024 0 : List Nat).length = 1024) ∧
    (flashModel ⟨PRODUCT_ID, List.replicate 1024 0, none, false⟩
        (List.replicate 1024 0)).outcome = .ok () ∧
    FlashEvent.mk .complete 100 "Flash complete." ∈
      (flashModel ⟨PRODUCT_ID, List.replicate 1024 0, none, false⟩
        (List.replicate 1024 0)).events := by
  have h := flash_1024_scenario (List.replicate 1024 0) (List.replicate 1024 0)
    (by rw [List.length_replicate]) (by rw [List.length_replicate])
  obtain ⟨_, h2, _⟩ := h
  obtain ⟨_, hev, hout⟩ := h2 rfl
  refine ⟨by rw [List.length_replicate], hout, ?_⟩
  rw [hev]
  decide
